import Mathlib

/-!
Shallow embedding of the entity-resolution core of the zagreb-buildings
pipeline:

* the address-query generator and the geocode scoring / selection logic of
  `scripts/geocode.ts`;
* the footprint matcher of `scripts/fetch_footprints.ts` (the current,
  second version in that file: `pickBest`, `mergeBuildingParts`,
  `findGeometryWithFallback`, and the per-record status derivation of
  `main`).

Modelling conventions:

* Strings are Lean `String`s; character-level routines work on `List Char`.
  JavaScript string builtins (`toLowerCase`, `trim`, `split`,
  regular-expression tests) are modelled character-exactly on the alphabet
  the pipeline manipulates: ASCII plus the Croatian letters Č, Ć, Š, Ž, Đ
  appearing in the source's character classes (other code points are left
  untouched by the case map, and the JS `\s` class is modelled by its
  members that can occur here).
* JavaScript numbers are modelled as exact rationals (`ℚ`) or integers
  (`ℤ`): every score in the source is a finite sum of integer constants and
  capped rational terms, so no floating-point rounding is involved in any
  comparison the claims are about.  `Number.POSITIVE_INFINITY` (the
  centroid-less distance) is modelled by `none`.
* External collaborators (the Nominatim and Overpass HTTP fetches, the turf
  geometry library, and the transcendental haversine distance) enter only
  through the values they produce; they are abstracted as explicit
  function-valued parameters (`GeoEnv`, `FetchEnv`) so that every theorem
  quantifies over their behaviour.
-/

/- Batteries marks the `Rat` arithmetic operations `@[irreducible]`; re-tag
them (locally) so that concrete witness computations on exact rationals can
be evaluated by `decide`. -/
attribute [local semireducible] Rat.add Rat.sub Rat.mul Rat.inv Rat.ofScientific

/-! ## JavaScript string primitives -/

/-- The JS `\s` whitespace class (the members that can occur in this
pipeline's data: ASCII whitespace and no-break space). Used by `trim`,
`\s` in regexes, and `split(/\s+/)`. -/
def isWsJS (c : Char) : Bool :=
  c = ' ' || c = '\t' || c = '\n' || c = '\r' || c = '\x0b' || c = '\x0c' || c = '\u00A0'

/-- The JS regex word-character class `[A-Za-z0-9_]` (used by `\b`). -/
def isWordCharJS (c : Char) : Bool :=
  c.isAlpha || c.isDigit || c = '_'

/-- JS `String.prototype.toLowerCase` on the alphabet this pipeline
manipulates: ASCII `A`–`Z` plus the Croatian capitals Č, Ć, Š, Ž, Đ; all
other code points are fixed. -/
def jsCharToLower (c : Char) : Char :=
  if 'A' ≤ c ∧ c ≤ 'Z' then Char.ofNat (c.toNat + 32)
  else if c = 'Č' then 'č'
  else if c = 'Ć' then 'ć'
  else if c = 'Š' then 'š'
  else if c = 'Ž' then 'ž'
  else if c = 'Đ' then 'đ'
  else c

/-- Lowercase a character list (JS `toLowerCase`). -/
def jsLowerL (l : List Char) : List Char := l.map jsCharToLower

/-- JS `String.prototype.trim` on a character list. -/
def trimL (l : List Char) : List Char :=
  ((l.dropWhile isWsJS).reverse.dropWhile isWsJS).reverse

/-- `pat` is a prefix of `l` (JS `startsWith`). -/
def startsWithL : List Char → List Char → Bool
  | [], _ => true
  | _ :: _, [] => false
  | p :: ps, c :: cs => p = c && startsWithL ps cs

/-- `pat` is a suffix of `l` (JS `endsWith`). -/
def endsWithL (pat l : List Char) : Bool := startsWithL pat.reverse l.reverse

/-- `pat` occurs contiguously somewhere in `l` (JS `includes`). -/
def containsSeq (pat l : List Char) : Bool :=
  (List.range (l.length + 1)).any fun i => startsWithL pat (l.drop i)

/-- Word-ness of an optional character; a missing character (string edge)
counts as a non-word position, as in JS `\b`. -/
def wordOpt : Option Char → Bool
  | none => false
  | some c => isWordCharJS c

/-- A JS word boundary `\b` sits between two positions of different
word-ness. -/
def boundaryOkJS (a b : Option Char) : Bool := wordOpt a != wordOpt b

/-- `hasBoundedOccurrence pat l` models the JS regex test
`\b<pat>\b`.test(l)` for a literal pattern `pat`: `pat` occurs at some
index with a word boundary immediately before and after it. -/
def hasBoundedOccurrence (pat l : List Char) : Bool :=
  (List.range (l.length + 1)).any fun i =>
    startsWithL pat (l.drop i) &&
    boundaryOkJS (if i = 0 then none else l[i-1]?) pat.head? &&
    boundaryOkJS pat.getLast? l[i + pat.length]?

/-- JS `"s".split(/\s+/)` state machine: `inWs` records that the previous
character belonged to a separator run (so further whitespace extends the
run instead of emitting an empty token). -/
def splitWsGo : Bool → List Char → List Char → List (List Char)
  | false, cur, [] => [cur.reverse]
  | false, cur, c :: r =>
    if isWsJS c then cur.reverse :: splitWsGo true [] r
    else splitWsGo false (c :: cur) r
  | true, _, [] => [[]]
  | true, _, c :: r =>
    if isWsJS c then splitWsGo true [] r
    else splitWsGo false [c] r

/-- JS `String.prototype.split(/\s+/)` on a character list. -/
def splitWsJS (l : List Char) : List (List Char) := splitWsGo false [] l

/-- JS `replace(/\s+/g, " ")` state machine. -/
def collapseWsGo : Bool → List Char → List Char
  | _, [] => []
  | inWs, c :: r =>
    if isWsJS c then (if inWs then collapseWsGo true r else ' ' :: collapseWsGo true r)
    else c :: collapseWsGo false r

/-- JS `replace(/\s+/g, " ")`: every maximal whitespace run becomes one
space. -/
def collapseWs (l : List Char) : List Char := collapseWsGo false l

/-! ## `scripts/geocode.ts`: Croatian street-name heuristics -/

/-- `looksLikeCroatianGenitiveAdjective` from `scripts/geocode.ts`: the word
must end in `-a`, must not end in the noun-forming `-ica`, and must end in
one of the recognised genitive/possessive adjectival suffixes. -/
def looksLikeCroatianGenitiveAdjective (word : List Char) : Bool :=
  let lower := jsLowerL word
  if !(endsWithL "a".toList lower) then false
  else if endsWithL "ica".toList lower then false
  else ["eva", "ova", "ina", "ska", "čka", "ška"].any fun p =>
    endsWithL p.toList lower

/-- The street-type patterns of `appendUlicaIfNeeded`, each tested as
`\b<pattern>\b` against the lowercased address (the regex source `ul\.`
denotes the literal text `ul.`). -/
def streetTypePatterns : List (List Char) :=
  ["ulica", "ul.", "trg", "cesta", "avenija", "put", "prolaz", "stube",
   "park", "aleja", "obala", "prilaz", "odvojak"].map String.toList

/-- Whether the (lowercased) address already carries a street-type word. -/
def hasStreetTypeWord (lower : List Char) : Bool :=
  streetTypePatterns.any fun p => hasBoundedOccurrence p lower

/-- The character class `[A-Za-zČčĆćŠšŽžĐđ\s]` of the street regex in
`appendUlicaIfNeeded`. -/
def streetLetterClass (c : Char) : Bool :=
  c.isAlpha ||
  ['Č', 'č', 'Ć', 'ć', 'Š', 'š', 'Ž', 'ž', 'Đ', 'đ'].contains c ||
  isWsJS c

/-- The tail `("rest" group) of the street regex may only be empty or start
with a comma (`(,.*)?$`). -/
def restOkStreet : List Char → Bool
  | [] => true
  | c :: _ => c = ','

/-- Match the groups `(\s+\d+[A-Za-z]?)(,.*)?$` of the street regex against
`s`, returning (house-number group, rest group). `\s+` and `\d+` are
greedy; shrinking them can never help because the next position would then
hold a whitespace/digit, which neither `[A-Za-z]?` at a boundary nor
`(,.*)?$` accepts — so only the optional letter needs backtracking. -/
def tryTailStreet (s : List Char) : Option (List Char × List Char) :=
  let ws := s.takeWhile isWsJS
  let r1 := s.dropWhile isWsJS
  if ws.isEmpty then none
  else
    let d := r1.takeWhile Char.isDigit
    let r2 := r1.dropWhile Char.isDigit
    if d.isEmpty then none
    else
      match r2 with
      | [] => some (ws ++ d, [])
      | c :: r3 =>
        if c.isAlpha && restOkStreet r3 then some (ws ++ d ++ [c], r3)
        else if restOkStreet r2 then some (ws ++ d, r2)
        else none

/-- Lazy matching loop for `^([A-Za-zČčĆćŠšŽžĐđ\s]+?)(\s+\d+[A-Za-z]?)(,.*)?$`:
the first group grows one character at a time (each must belong to the
class), and at each split the remainder is matched by `tryTailStreet`. -/
def matchStreetGo (g1rev : List Char) : List Char → Option (List Char × List Char × List Char)
  | [] => none
  | c :: rest =>
    if streetLetterClass c then
      match tryTailStreet rest with
      | some (g2, g3) => some ((c :: g1rev).reverse, g2, g3)
      | none => matchStreetGo (c :: g1rev) rest
    else none

/-- The full-street regex match of `appendUlicaIfNeeded`, returning the
three groups (street-name part, house-number part, rest). -/
def matchStreet (s : List Char) : Option (List Char × List Char × List Char) :=
  matchStreetGo [] s

/-- `appendUlicaIfNeeded` from `scripts/geocode.ts`, on character lists. -/
def appendUlicaL (address : List Char) : List Char :=
  let lower := jsLowerL address
  if hasStreetTypeWord lower then address
  else
    match matchStreet address with
    | some (g1, g2, g3) =>
      let streetName := trimL g1
      if (splitWsJS streetName).length = 1 && looksLikeCroatianGenitiveAdjective streetName then
        streetName ++ " ulica".toList ++ g2 ++ g3
      else address
    | none => address

/-- `appendUlicaIfNeeded` from `scripts/geocode.ts`. -/
def appendUlicaIfNeeded (address : String) : String :=
  ⟨appendUlicaL address.data⟩

/-! ## `scripts/geocode.ts`: address-query generation -/

/-- `normalizeAddress` from `scripts/geocode.ts`:
`a.trim().replace(/\s+/g, " ")`, on character lists. -/
def normalizeAddressL (l : List Char) : List Char := collapseWs (trimL l)

/-- `normalizeAddress` from `scripts/geocode.ts`. -/
def normalizeAddress (a : String) : String := ⟨normalizeAddressL a.data⟩

/-- JS `String.prototype.split` with a single-character separator, on
character lists: split at every occurrence, keeping empty segments. -/
def splitOnCharGo (sep : Char) : List Char → List Char → List (List Char)
  | [], acc => [acc.reverse]
  | c :: rest, acc =>
    if c = sep then acc.reverse :: splitOnCharGo sep rest []
    else splitOnCharGo sep rest (c :: acc)

/-- JS `split` with a one-character separator string. -/
def splitOnChar (sep : Char) (l : List Char) : List (List Char) :=
  splitOnCharGo sep l []

/-- `choosePrimaryAddress` from `scripts/geocode.ts`: split the raw address
on `/`, prefer a segment matching `/trg bana/i`, else the first segment. -/
def choosePrimaryAddress (addr : String) : String :=
  let parts := (splitOnChar '/' addr.data).map fun s => (⟨trimL s⟩ : String)
  match parts.find? (fun p => containsSeq "trg bana".toList (jsLowerL p.data)) with
  | some t => t
  | none => parts.headD ""

/-- One step of `uniqueCaseInsensitive`: `seen` holds the lowercased
trimmed keys already emitted. -/
def uniqueCIGo (seen : List (List Char)) : List String → List String
  | [] => []
  | v :: rest =>
    let k := jsLowerL (trimL v.data)
    if k.isEmpty then uniqueCIGo seen rest
    else if seen.contains k then uniqueCIGo seen rest
    else (⟨trimL v.data⟩ : String) :: uniqueCIGo (k :: seen) rest

/-- `uniqueCaseInsensitive` from `scripts/geocode.ts`: drop blank entries and
case-insensitive duplicates, keeping the first occurrence (trimmed). -/
def uniqueCaseInsensitive (values : List String) : List String :=
  uniqueCIGo [] values

/-- An entry of the record's `addresses_json` column after JSON parsing
(`safeJsonParse`); only `normalized` is read by the query generator. -/
structure AddressPartLike where
  raw : Option String
  normalized : Option String
deriving DecidableEq

/-- The fields of a canonical CSV row that the address-query generator
reads. `addresses_json` is modelled post-parse: `none` is a missing or
invalid JSON column (`safeJsonParse` returns `null`), and an absent or
empty CSV string field is the empty string. -/
structure CanonicalRow where
  address : String
  primary_address : String
  addresses_json : Option (List AddressPartLike)
deriving DecidableEq

/-- `addressQueriesForRow` from `scripts/geocode.ts`. -/
def addressQueriesForRow (r : CanonicalRow) : List String :=
  let fromJson : List String :=
    match r.addresses_json with
    | none => []
    | some parts => (parts.filterMap fun p => p.normalized).filter fun s => s ≠ ""
  let fromSplit := (splitOnChar '/' r.address.data).map fun s => normalizeAddress ⟨s⟩
  let primary :=
    if r.primary_address ≠ "" then normalizeAddress r.primary_address
    else normalizeAddress (choosePrimaryAddress r.address)
  let combined := uniqueCaseInsensitive ([primary] ++ fromJson ++ fromSplit)
  let filtered := combined.filter fun q =>
    q ≠ "" && !(containsSeq ['/'] q.data) &&
    (containsSeq "zagreb".toList (jsLowerL q.data) ||
     containsSeq "croatia".toList (jsLowerL q.data))
  filtered.map appendUlicaIfNeeded

/-! ## `scripts/geocode.ts`: geocode scoring and selection -/

/-- First match of the house-number regex `\b(\d+[A-Za-z]?)\b` starting at
index `i`: the pattern starts with a digit (a word character), so the
leading `\b` demands a non-word character (or the string edge) before `i`;
`\d+` is greedy, and only the optional trailing letter backtracks. -/
def hnAt (l : List Char) (i : Nat) : Option (List Char) :=
  if 0 < i && wordOpt l[i-1]? then none
  else
    let d := (l.drop i).takeWhile Char.isDigit
    let r2 := (l.drop i).dropWhile Char.isDigit
    if d.isEmpty then none
    else
      match r2 with
      | [] => some d
      | c :: r3 =>
        if c.isAlpha then (if wordOpt r3.head? then none else some (d ++ [c]))
        else if isWordCharJS c then none
        else some d

/-- JS `s.match(/\b(\d+[A-Za-z]?)\b/)`: the leftmost match, scanning start
positions left to right. -/
def firstHouseNumber (l : List Char) : Option (List Char) :=
  (List.range l.length).findSome? (hnAt l)

/-- The Zagreb city bounding box (`ZAGREB_BOUNDS` in `scripts/geocode.ts`). -/
structure BoundsBox where
  minLat : ℚ
  maxLat : ℚ
  minLon : ℚ
  maxLon : ℚ

/-- `ZAGREB_BOUNDS` from `scripts/geocode.ts`. -/
def ZAGREB_BOUNDS : BoundsBox :=
  { minLat := 45.75, maxLat := 45.87, minLon := 15.87, maxLon := 16.12 }

/-- `isWithinZagrebBounds` from `scripts/geocode.ts` (false on a missing
coordinate). -/
def isWithinZagrebBounds : Option ℚ → Option ℚ → Bool
  | some lat, some lon =>
    decide (ZAGREB_BOUNDS.minLat ≤ lat) && decide (lat ≤ ZAGREB_BOUNDS.maxLat) &&
    decide (ZAGREB_BOUNDS.minLon ≤ lon) && decide (lon ≤ ZAGREB_BOUNDS.maxLon)
  | _, _ => false

/-- The classification metadata of a cached geocode hit (`entry.raw`),
with each field already coerced as `String(raw.x ?? "")` does. -/
structure RawHit where
  category : String
  type : String
  addresstype : String
deriving DecidableEq

/-- A `GeocodeCacheEntry` of `scripts/geocode.ts`; coordinates are `none`
when the JS value is `null` (or non-finite). -/
structure GeocodeCacheEntry where
  lat : Option ℚ
  lon : Option ℚ
  display_name : Option String
  osm_type : Option String
  raw : Option RawHit
deriving DecidableEq

/-- `scoreGeocodeEntry` from `scripts/geocode.ts`: the query-level
deterministic score of a cached hit, written as the sum of the source's
sequential `s += …` updates. -/
def scoreGeocodeEntry (entry : GeocodeCacheEntry) (query : String) : Int :=
  match entry.lat, entry.lon with
  | some lat, some lon =>
    let category := match entry.raw with | some r => r.category | none => ""
    let addresstype := match entry.raw with | some r => r.addresstype | none => ""
    let ty := match entry.raw with | some r => r.type | none => ""
    let display := jsLowerL (entry.display_name.getD "").data
    (if isWithinZagrebBounds (some lat) (some lon) then 0 else -10000)
    + (if category = "building" then 300 else 0)
    + (if addresstype = "building" then 250 else 0)
    + (if category = "place" ∧ (ty = "square" ∨ addresstype = "square") then -250 else 0)
    + (if category = "leisure" ∧ ty = "park" then -200 else 0)
    + (if category = "highway" then -250 else 0)
    + (if entry.osm_type = some "way" ∨ entry.osm_type = some "relation" then 50 else 0)
    + (match firstHouseNumber query.data with
       | none => 0
       | some hn =>
         let hnl := jsLowerL hn
         if startsWithL (hnl ++ [',']) display then 80
         else if containsSeq ([' '] ++ hnl ++ [',']) display then 50
         else 0)
  | _, _ => -1000000

/-- One raw Nominatim hit as read by the hit-level `score` closure inside
`geocodeNominatim`. `place_rank` is the service's specificity rank, a
non-negative integer per the geocoding interface; `none` models a
non-number value (the `typeof` guard). -/
structure NominatimHit where
  lat : Option ℚ
  lon : Option ℚ
  display_name : String
  category : String
  addresstype : String
  place_rank : Option Nat
deriving DecidableEq

/-- The hit-level `score` closure of `geocodeNominatim` in
`scripts/geocode.ts`. `houseNumber` is the (already lowercased) house
number extracted from the query string before the closure is built. -/
def scoreNominatimHit (houseNumber : Option (List Char)) (hit : NominatimHit) : Int :=
  (if isWithinZagrebBounds hit.lat hit.lon then 0 else -10000)
  + (if hit.category = "building" then 120 else 0)
  + (if hit.addresstype = "building" then 100 else 0)
  + (if hit.category = "highway" then -80 else 0)
  + (match houseNumber with
     | none => 0
     | some hn =>
       let display := jsLowerL hit.display_name.data
       if startsWithL (hn ++ [',']) display then 80
       else if containsSeq ([' '] ++ hn ++ [',']) display then 50
       else 0)
  + (match hit.place_rank with
     | some pr => min 20 (pr : Int)
     | none => 0)

/-- The stable order realised by `[...data].sort((a, b) => score(b) - score(a))`:
`a` may stay before `b` exactly when the comparator is non-positive. -/
def hitBefore (houseNumber : Option (List Char)) (a b : NominatimHit) : Prop :=
  scoreNominatimHit houseNumber b ≤ scoreNominatimHit houseNumber a

instance (houseNumber : Option (List Char)) : DecidableRel (hitBefore houseNumber) :=
  fun a b => inferInstanceAs (Decidable
    (scoreNominatimHit houseNumber b ≤ scoreNominatimHit houseNumber a))

/-- `[...data].sort((a, b) => score(b) - score(a))[0]` from
`geocodeNominatim`: the winning hit of one geocoding response (JS `sort`
is stable, and the comparator is a total preorder, so the stable insertion
sort realises exactly the engine's result). -/
def chooseNominatimHit (houseNumber : Option (List Char)) (data : List NominatimHit) :
    Option NominatimHit :=
  (List.insertionSort (hitBefore houseNumber) data).head?

/-! ## `scripts/fetch_footprints.ts`: data model -/

/-- A linear ring: a list of `[lon, lat]` vertices. -/
abbrev LinearRing := List (ℚ × ℚ)

/-- A GeoJSON geometry as it reaches the matcher: `toFeatures` keeps only
`Polygon` and `MultiPolygon` features. -/
inductive Geometry
  | polygon (coordinates : List LinearRing)
  | multiPolygon (coordinates : List (List LinearRing))
deriving DecidableEq

/-- The OSM tags of a feature that the matcher reads (`addr:housenumber`,
`addr:street`, `building`, `building:part`, `type`); `none` is an absent
tag. -/
structure FeatureProps where
  addr_housenumber : Option String
  addr_street : Option String
  building : Option String
  building_part : Option String
  type : Option String
deriving DecidableEq

/-- A polygonal GeoJSON feature produced by `toFeatures` (id is the
`osmtogeojson` identifier such as `way/123`). -/
structure Feature where
  id : String
  properties : FeatureProps
  geometry : Geometry
deriving DecidableEq

/-- JS truthiness of an optional tag value (absent and empty are falsy). -/
def truthy : Option String → Bool
  | some s => s ≠ ""
  | none => false

/-- `tagClassFromProps` from `scripts/fetch_footprints.ts`. -/
def tagClassFromProps (props : FeatureProps) : String :=
  if truthy props.building_part then "building_part"
  else if truthy props.building then "building"
  else if props.type = some "building" then "typed_building_relation"
  else "unknown"

/-- `geometryCentroid` from `scripts/fetch_footprints.ts`: the plain average
of all ring vertices, as `(lat, lon)`; `none` when there are no points. -/
def geometryPoints : Geometry → List (ℚ × ℚ)
  | .polygon rings => rings.flatten
  | .multiPolygon polys => (polys.map List.flatten).flatten

/-- `geometryCentroid` from `scripts/fetch_footprints.ts`. -/
def geometryCentroid (g : Geometry) : Option (ℚ × ℚ) :=
  let pts := geometryPoints g
  if pts.isEmpty then none
  else some ((pts.map Prod.snd).sum / pts.length, (pts.map Prod.fst).sum / pts.length)

/-- `extractHouseNumberFromAddress` from `scripts/fetch_footprints.ts` (the
same `\b(\d+[A-Za-z]?)\b` first match used by the geocoder). -/
def extractHouseNumberFromAddress (addr : String) : Option (List Char) :=
  firstHouseNumber addr.data

/-- `addrMatches` from `scripts/fetch_footprints.ts`: +120 for an exact
(case-insensitive) house-number agreement, +60 when the candidate's tagged
street occurs in the canonical address. -/
def addrMatches (featureProps : FeatureProps) (canonicalAddress : String) : Int :=
  let hn := extractHouseNumberFromAddress canonicalAddress
  let osmHN := match featureProps.addr_housenumber with
    | some s => if s ≠ "" then some s else none
    | none => none
  let osmStreet := match featureProps.addr_street with
    | some s => if s ≠ "" then some s else none
    | none => none
  (match hn, osmHN with
   | some h, some o => if jsLowerL o.data = jsLowerL h then 120 else 0
   | _, _ => 0)
  + (match osmStreet with
     | some st =>
       if containsSeq (jsLowerL st.data) (jsLowerL canonicalAddress.data) then 60 else 0
     | none => 0)

/-- `addrMatchesMulti` from `scripts/fetch_footprints.ts`: the best bonus
over all known address variants. -/
def addrMatchesMulti (featureProps : FeatureProps) (canonicalAddresses : List String) : Int :=
  canonicalAddresses.foldl (fun best a => max best (addrMatches featureProps a)) 0

/-- The external geometric collaborators of the matcher, as abstract
functions of the values the source feeds them:

* `containsPoint` models `booleanPointInPolygon(point([lon, lat]), f)`
  (turf library; a thrown exception is absorbed to `false` by the source);
* `turfAreaM2` models `turfArea(f)` (turf library; exceptions become `0`);
* `haversineMeters` models the source's `haversineMeters lat1 lon1 lat2 lon2`
  — its body computes with transcendental floating-point functions, so only
  the produced distance value enters the embedding;
* `validGeometry` — modelled from the spec: `validateGeometry(...).isValid`
  of `scripts/validation.ts`, which is not among the provided sources; per
  the spec it is a structural/area sanity check on a geometry, and only its
  boolean verdict affects matching. -/
structure GeoEnv where
  containsPoint : ℚ → ℚ → Geometry → Bool
  turfAreaM2 : Geometry → ℚ
  haversineMeters : ℚ → ℚ → ℚ → ℚ → ℚ
  validGeometry : Geometry → Bool

/-- A `ScoredCandidate` of `scripts/fetch_footprints.ts`; `dist_m = none`
models `Number.POSITIVE_INFINITY` (no centroid). -/
structure ScoredCandidate where
  osm_ref : String
  score : ℚ
  contains : Bool
  dist_m : Option ℚ
  area_m2 : ℚ
  addr_bonus : Int
  tag_class : String
  feature : Feature
deriving DecidableEq

/-- The candidate-scoring map inside `pickBest`: derive every signal and the
composite score for one feature. -/
def scoreFeature (ge : GeoEnv) (targetLat targetLon : ℚ) (canonicalAddresses : List String)
    (f : Feature) : ScoredCandidate :=
  let contains := ge.containsPoint targetLat targetLon f.geometry
  let area := ge.turfAreaM2 f.geometry
  let dist : Option ℚ :=
    match geometryCentroid f.geometry with
    | some c => some (ge.haversineMeters targetLat targetLon c.1 c.2)
    | none => none
  let addrBonus := addrMatchesMulti f.properties canonicalAddresses
  let tagClass := tagClassFromProps f.properties
  let tagBonus : Int :=
    if tagClass = "building" then 80 else if tagClass = "building_part" then -20 else 0
  let score : ℚ :=
    (if contains then 10000 else 0) + (addrBonus : ℚ) + (tagBonus : ℚ)
    + (match dist with | some d => max 0 (500 - d) | none => 0)
    + max 0 (2000 - area / 10)
  { osm_ref := f.id, score := score, contains := contains, dist_m := dist,
    area_m2 := area, addr_bonus := addrBonus, tag_class := tagClass, feature := f }

/-- Sign of `a.dist_m - b.dist_m` for the sort comparator, with `none` as
`+∞` (the comparator only reaches this after `a.dist_m ≠ b.dist_m`). -/
def distCmpVal : Option ℚ → Option ℚ → Ordering
  | some a, some b => if a < b then .lt else if b < a then .gt else .eq
  | some _, none => .lt
  | none, some _ => .gt
  | none, none => .eq

/-- Code-point lexicographic order on character lists, the model of JS
`localeCompare` (exact for the ASCII object references compared here). -/
def lexLtL : List Char → List Char → Bool
  | [], [] => false
  | [], _ :: _ => true
  | _ :: _, [] => false
  | a :: as, b :: bs => if a < b then true else if b < a then false else lexLtL as bs

/-- The deterministic sort comparator of `pickBest`: score descending, then
area ascending, then centroid distance ascending, then object reference
(`localeCompare` modelled as code-point order, exact on these ASCII ids). -/
def candCmp (a b : ScoredCandidate) : Ordering :=
  if a.score ≠ b.score then (if b.score < a.score then .lt else .gt)
  else if a.area_m2 ≠ b.area_m2 then (if a.area_m2 < b.area_m2 then .lt else .gt)
  else if a.dist_m ≠ b.dist_m then distCmpVal a.dist_m b.dist_m
  else if lexLtL a.osm_ref.data b.osm_ref.data then .lt
  else if lexLtL b.osm_ref.data a.osm_ref.data then .gt
  else .eq

/-- The stable order realised by the JS in-place sort with `candCmp`. -/
def candBefore (a b : ScoredCandidate) : Prop := candCmp a b ≠ Ordering.gt

instance : DecidableRel candBefore :=
  fun a b => inferInstanceAs (Decidable (candCmp a b ≠ Ordering.gt))

/-- The result record of `pickBest`. -/
structure PickResult where
  best : Option ScoredCandidate
  strategy : String
  confidence : String
  topCandidates : List ScoredCandidate
deriving DecidableEq

/-- The validation filter of `pickBest`. -/
def validFeaturesOf (ge : GeoEnv) (features : List Feature) : List Feature :=
  features.filter fun f => ge.validGeometry f.geometry

/-- The scored candidates of `pickBest`. The source's `Number.isFinite`
filter on scores is omitted: rational scores are always finite. -/
def scoredOf (ge : GeoEnv) (targetLat targetLon : ℚ) (canonicalAddresses : List String)
    (features : List Feature) : List ScoredCandidate :=
  (validFeaturesOf ge features).map (scoreFeature ge targetLat targetLon canonicalAddresses)

/-- The candidate pool of `pickBest`: the containing subset when it is
non-empty, else every scored candidate. -/
def poolOf (ge : GeoEnv) (targetLat targetLon : ℚ) (canonicalAddresses : List String)
    (features : List Feature) : List ScoredCandidate :=
  let scored := scoredOf ge targetLat targetLon canonicalAddresses features
  let containing := scored.filter fun x => x.contains
  if containing.isEmpty then scored else containing

/-- The deterministically sorted pool of `pickBest`. JS `sort` is stable
and `candCmp` is a total preorder, so the stable insertion sort realises
exactly the engine's result. -/
def sortedPoolOf (ge : GeoEnv) (targetLat targetLon : ℚ) (canonicalAddresses : List String)
    (features : List Feature) : List ScoredCandidate :=
  List.insertionSort candBefore (poolOf ge targetLat targetLon canonicalAddresses features)

/-- The tail of `pickBest` after sorting: read `pool[0]` / `pool[1]`,
assign confidence and strategy, apply the top-2 ambiguity downgrade, and
report the top 15 candidates. -/
def pickFrom (sorted : List ScoredCandidate) : PickResult :=
  match sorted.head? with
  | none =>
    { best := none, strategy := "fallback_matching", confidence := "low",
      topCandidates := sorted.take 15 }
  | some best =>
    let second := sorted[1]?
    let base : String × String :=
      if best.contains ∧ 60 ≤ best.addr_bonus then ("high", "point_containment_with_address")
      else if best.contains then ("medium", "point_containment_only")
      else if 60 ≤ best.addr_bonus then ("medium", "address_match_only")
      else ("low", "fallback_matching")
    let final : String × String :=
      match second with
      | some s =>
        if ¬best.contains ∧ best.addr_bonus < 60 ∧ |best.score - s.score| < 80 then
          ("low", "ambiguous_top2")
        else base
      | none => base
    { best := some best, strategy := final.2, confidence := final.1,
      topCandidates := sorted.take 15 }

/-- `pickBest` from `scripts/fetch_footprints.ts` (the current version with
validation, tag classes and the ambiguity downgrade), assembled from the
blocks above in source order. -/
def pickBest (ge : GeoEnv) (features : List Feature) (targetLat targetLon : ℚ)
    (canonicalAddresses : List String) : PickResult :=
  if features.isEmpty then
    { best := none, strategy := "no_candidates", confidence := "low", topCandidates := [] }
  else if (validFeaturesOf ge features).isEmpty then
    { best := none, strategy := "no_valid_geometries", confidence := "low", topCandidates := [] }
  else if (scoredOf ge targetLat targetLon canonicalAddresses features).isEmpty then
    { best := none, strategy := "scoring_failed", confidence := "low", topCandidates := [] }
  else pickFrom (sortedPoolOf ge targetLat targetLon canonicalAddresses features)

/-! ## `scripts/fetch_footprints.ts`: part merging and the fallback ladder -/

/-- The polygon-collection loop of `mergeBuildingParts`: a `Polygon`
contributes its ring list as one polygon, a `MultiPolygon` spreads its
polygons. -/
def partsPolys (parts : List ScoredCandidate) : List (List LinearRing) :=
  parts.foldl
    (fun acc p =>
      match p.feature.geometry with
      | .polygon cs => acc ++ [cs]
      | .multiPolygon cs => acc ++ cs)
    []

/-- The qualifying sub-parts of `mergeBuildingParts`: building parts among
the candidates within 80 m of the target point and within 600 score points
of the winner, capped at 10. -/
def qualifyingParts (best : ScoredCandidate) (candidates : List ScoredCandidate) :
    List ScoredCandidate :=
  ((((candidates.filter fun c => c.tag_class = "building_part").filter fun c =>
      match c.dist_m with
      | some d => d ≤ 80
      | none => false).filter fun c =>
      best.score - 600 ≤ c.score).take 10)

/-- `mergeBuildingParts` from `scripts/fetch_footprints.ts`: when the winner
is a building part and at least two parts qualify, union their polygons
into one `MultiPolygon` and list all contributing references. -/
def mergeBuildingParts (best : ScoredCandidate) (candidates : List ScoredCandidate) :
    Option (Geometry × List String) :=
  if best.tag_class ≠ "building_part" then none
  else
    let parts := qualifyingParts best candidates
    if parts.length < 2 then none
    else
      let polys := partsPolys parts
      if polys.isEmpty then none
      else some (Geometry.multiPolygon polys, parts.map fun p => p.osm_ref)

/-- A row of the manual override table (`parseOverrides` keeps
`building_id`, `osm_type`, `osm_id`). -/
structure OverrideRow where
  building_id : String
  osm_type : String
  osm_id : String
deriving DecidableEq

/-- The geocode-metadata fields of a geocoded CSV row that the footprint
matcher reads (absent CSV fields are empty strings, matching
`String(r.x ?? "")`). -/
structure GeocodedRow where
  id : String
  geocode_osm_type : String
  geocode_osm_id : String
  geocode_category : String
  geocode_addresstype : String
deriving DecidableEq

/-- `isTrustedGeocodeRef` from `scripts/fetch_footprints.ts`: trust the
geocoder's own object reference only when it is a way/relation classified
as a building. -/
def isTrustedGeocodeRef (r : GeocodedRow) : Option (String × String) :=
  if r.geocode_osm_id = "" then none
  else if r.geocode_osm_type ≠ "way" ∧ r.geocode_osm_type ≠ "relation" then none
  else if r.geocode_category = "building" ∨ r.geocode_addresstype = "building" then
    some (r.geocode_osm_type, r.geocode_osm_id)
  else none

/-- The Overpass responses available to one record's matching run, after
`fetchOverpass` + `toFeatures`: `none` models a fetch that ultimately threw
(all retries exhausted), `some feats` the polygonal features of the
response. `overrideFeatures` answers the direct query for the override
reference, `trustedFeatures` the one for the geocoder's reference, and
`radiusFeatures r` the around-query at radius `r`. -/
structure FetchEnv where
  overrideFeatures : Option (List Feature)
  trustedFeatures : Option (List Feature)
  radiusFeatures : Nat → Option (List Feature)

/-- The result record of `findGeometryWithFallback`. -/
structure MatchAttemptResult where
  geometry : Option Geometry
  osm_refs : List String
  strategy : String
  confidence : String
  topCandidates : List ScoredCandidate
  radii_tried : List Nat
deriving DecidableEq

/-- `RADIUS_M` from `scripts/fetch_footprints.ts`. -/
def RADIUS_M : Nat := 80

/-- The `lowConfidenceGeocode` test of `findGeometryWithFallback`. -/
def lowConfidenceGeocode (row : GeocodedRow) : Prop :=
  row.geocode_category ≠ "building" ∧ row.geocode_addresstype ≠ "building" ∧
  row.geocode_category = "place"

instance (row : GeocodedRow) : Decidable (lowConfidenceGeocode row) :=
  inferInstanceAs (Decidable (_ ∧ _ ∧ _))

/-- The radius ladder of `findGeometryWithFallback`: the base steps plus an
extended 350 m step for place-classified geocodes. -/
def radiusStepsFor (row : GeocodedRow) : List Nat :=
  if lowConfidenceGeocode row then [RADIUS_M, 120, 160, 200, 350] else [RADIUS_M, 120, 160, 200]

/-- The radius loop of `findGeometryWithFallback`: each visited radius is
recorded in `radii_tried` before fetching; a failed fetch or an empty pick
falls through to the next radius; a successful pick returns, merging
building parts first. -/
def runRadiusLadder (ge : GeoEnv) (fe : FetchEnv) (targetLat targetLon : ℚ)
    (canonicalAddresses : List String) : List Nat → List Nat → MatchAttemptResult
  | [], tried =>
    { geometry := none, osm_refs := [], strategy := "no_match_found", confidence := "low",
      topCandidates := [], radii_tried := tried }
  | radius :: rest, tried =>
    let tried := tried ++ [radius]
    match fe.radiusFeatures radius with
    | none => runRadiusLadder ge fe targetLat targetLon canonicalAddresses rest tried
    | some feats =>
      let picked := pickBest ge feats targetLat targetLon canonicalAddresses
      match picked.best with
      | none => runRadiusLadder ge fe targetLat targetLon canonicalAddresses rest tried
      | some b =>
        match mergeBuildingParts b picked.topCandidates with
        | some merged =>
          { geometry := some merged.1, osm_refs := merged.2,
            strategy := "radius_" ++ toString radius ++ "m_parts_merged_" ++ picked.strategy,
            confidence := picked.confidence, topCandidates := picked.topCandidates,
            radii_tried := tried }
        | none =>
          { geometry := some b.feature.geometry, osm_refs := [b.osm_ref],
            strategy := "radius_" ++ toString radius ++ "m_" ++ picked.strategy,
            confidence := picked.confidence, topCandidates := picked.topCandidates,
            radii_tried := tried }

/-- `findGeometryWithFallback` from `scripts/fetch_footprints.ts`: manual
override first, then the trusted geocoder reference, then the radius
ladder. A direct fetch that throws, or whose pick yields no best
candidate, falls through to the next stage. -/
def findGeometryWithFallback (ge : GeoEnv) (fe : FetchEnv) (targetLat targetLon : ℚ)
    (canonicalAddresses : List String) (row : GeocodedRow) (override : Option OverrideRow) :
    MatchAttemptResult :=
  let fromOverride : Option MatchAttemptResult :=
    match override with
    | none => none
    | some _ =>
      match fe.overrideFeatures with
      | none => none
      | some feats =>
        let picked := pickBest ge feats targetLat targetLon canonicalAddresses
        match picked.best with
        | none => none
        | some b =>
          some { geometry := some b.feature.geometry, osm_refs := [b.osm_ref],
                 strategy := "override_direct_" ++ picked.strategy,
                 confidence := picked.confidence, topCandidates := picked.topCandidates,
                 radii_tried := [] }
  match fromOverride with
  | some res => res
  | none =>
    let fromTrusted : Option MatchAttemptResult :=
      match isTrustedGeocodeRef row with
      | none => none
      | some _ =>
        match fe.trustedFeatures with
        | none => none
        | some feats =>
          let picked := pickBest ge feats targetLat targetLon canonicalAddresses
          match picked.best with
          | none => none
          | some b =>
            some { geometry := some b.feature.geometry, osm_refs := [b.osm_ref],
                   strategy := "direct_geocode_ref_" ++ picked.strategy,
                   confidence := picked.confidence, topCandidates := picked.topCandidates,
                   radii_tried := [] }
    match fromTrusted with
    | some res => res
    | none => runRadiusLadder ge fe targetLat targetLon canonicalAddresses (radiusStepsFor row) []

/-- JS `String.prototype.includes` on Lean strings. -/
def strContains (s sub : String) : Bool := containsSeq sub.data s.data

/-- The per-record status derivation in `main` of
`scripts/fetch_footprints.ts`: `not_found` without a geometry; otherwise
`matched` / `matched_parts_merged` / `ambiguous` from the strategy text,
downgraded to `invalid` when the selected geometry fails validation. -/
def recordStatus (ge : GeoEnv) (m : MatchAttemptResult) : String :=
  match m.geometry with
  | none => "not_found"
  | some g =>
    let s0 := if strContains m.strategy "parts_merged" then "matched_parts_merged" else "matched"
    let s1 := if strContains m.strategy "ambiguous" then "ambiguous" else s0
    if ge.validGeometry g then s1 else "invalid"

/-! ## Concrete fixtures

Small closed inputs used to instantiate the theorems below: unit-square
rings, features with and without address/part tags, and geometric
environments with explicitly chosen containment/area/distance behaviour. -/

/-- A unit square ring with lower-left corner `(x, y)` (in `[lon, lat]`). -/
def sqr (x y : ℚ) : LinearRing := [(x, y), (x+1, y), (x+1, y+1), (x, y+1), (x, y)]

def polyA : Geometry := .polygon [sqr 0 0]

def polyB : Geometry := .polygon [sqr 2 0]

def polyC : Geometry := .polygon [sqr 4 0]

/-- A feature with no tags at all. -/
def noProps : FeatureProps := ⟨none, none, none, none, none⟩

/-- A `building:part`-tagged feature. -/
def partProps : FeatureProps := ⟨none, none, none, some "yes", none⟩

/-- A building with house number 14. -/
def hnProps : FeatureProps := ⟨some "14", none, some "yes", none, none⟩

def featA : Feature := ⟨"way/1", noProps, polyA⟩

def featB : Feature := ⟨"way/2", hnProps, polyB⟩

def featD : Feature := ⟨"way/3", noProps, polyB⟩

def partA : Feature := ⟨"way/11", partProps, polyA⟩

def partB : Feature := ⟨"way/12", partProps, polyB⟩

def partC : Feature := ⟨"way/13", partProps, polyC⟩

/-- A concrete area function separating the three fixture polygons. -/
def areaOf : Geometry → ℚ := fun g => if g == polyB then 1000 else if g == polyC then 2000 else 0

/-- Environment in which exactly `polyA` contains the target point. -/
def geContainsA : GeoEnv := ⟨fun _ _ g => g == polyA, fun _ => 0, fun _ _ _ _ => 0, fun _ => true⟩

/-- Environment with no containment and distinct areas. -/
def geNoContain : GeoEnv := ⟨fun _ _ _ => false, areaOf, fun _ _ _ _ => 0, fun _ => true⟩

/-- Environment with no containment and all signals flat (equal scores). -/
def geFlat : GeoEnv := ⟨fun _ _ _ => false, fun _ => 0, fun _ _ _ _ => 0, fun _ => true⟩

/-- No Overpass response succeeds. -/
def feEmpty : FetchEnv := ⟨none, none, fun _ => none⟩

/-- The 80 m around-query returns the three part features; everything else
fails. -/
def feParts : FetchEnv := ⟨none, none, fun r => if r = 80 then some [partA, partB, partC] else none⟩

/-- The override direct fetch returns exactly `featB`. -/
def feOverrideB : FetchEnv := ⟨some [featB], none, fun _ => none⟩

/-- A geocoded row with no usable geocode metadata. -/
def row0 : GeocodedRow := ⟨"x", "", "", "", ""⟩

/-- A geocoded row whose winning geocode classified as a place. -/
def rowPlace : GeocodedRow := ⟨"x", "", "", "place", ""⟩

/-- A manual override pointing at `way/2`. -/
def ovB : OverrideRow := ⟨"x", "way", "2"⟩

/-- An in-bounds cached geocode hit that is maximally penalised (a square). -/
def entryIn : GeocodeCacheEntry :=
  { lat := some 45.8, lon := some 15.98, display_name := some "Trg, Zagreb",
    osm_type := some "node", raw := some ⟨"place", "square", "square"⟩ }

/-- An out-of-bounds cached geocode hit with every positive bonus. -/
def entryOut : GeocodeCacheEntry :=
  { lat := some 44.1, lon := some 15.2, display_name := some "14, Main Street, Zadar",
    osm_type := some "way", raw := some ⟨"building", "yes", "building"⟩ }

/-- An in-bounds Nominatim hit with no bonuses. -/
def hitIn : NominatimHit :=
  { lat := some 45.8, lon := some 15.98, display_name := "Ulica, Zagreb",
    category := "highway", addresstype := "road", place_rank := some 26 }

/-- An out-of-bounds Nominatim hit with every positive bonus. -/
def hitOut : NominatimHit :=
  { lat := some 44.1, lon := some 15.2, display_name := "14, Main Street, Zadar",
    category := "building", addresstype := "building", place_rank := some 30 }

/-- A canonical row whose raw address column holds two slash-separated
variants of the same street, one colloquial and one carrying `ulica`. -/
def rowDup : CanonicalRow :=
  ⟨"Teslina 14, Zagreb / Teslina ulica 14, Zagreb", "", none⟩

set_option maxRecDepth 8000

set_option maxHeartbeats 1000000

/-! ## Helper lemmas -/

theorem pickFrom_best (sorted : List ScoredCandidate) :
    (pickFrom sorted).best = sorted.head? := by
  cases sorted <;> rfl

theorem pickFrom_topCandidates (sorted : List ScoredCandidate) :
    (pickFrom sorted).topCandidates = sorted.take 15 := by
  cases sorted <;> rfl

theorem pickBest_eq_pickFrom {ge : GeoEnv} {features : List Feature} {targetLat targetLon : ℚ}
    {canonicalAddresses : List String} {b : ScoredCandidate}
    (h : (pickBest ge features targetLat targetLon canonicalAddresses).best = some b) :
    pickBest ge features targetLat targetLon canonicalAddresses
      = pickFrom (sortedPoolOf ge targetLat targetLon canonicalAddresses features) := by
  unfold pickBest at h ⊢
  split_ifs at h ⊢
  all_goals rfl

theorem pickBest_eq_pickFrom_of_top {ge : GeoEnv} {features : List Feature}
    {targetLat targetLon : ℚ} {canonicalAddresses : List String}
    (h : (pickBest ge features targetLat targetLon canonicalAddresses).topCandidates ≠ []) :
    pickBest ge features targetLat targetLon canonicalAddresses
      = pickFrom (sortedPoolOf ge targetLat targetLon canonicalAddresses features) := by
  unfold pickBest at h ⊢
  split_ifs at h ⊢ <;> first | rfl | simp_all

theorem mem_sortedPool {ge : GeoEnv} {targetLat targetLon : ℚ}
    {canonicalAddresses : List String} {features : List Feature} {x : ScoredCandidate} :
    x ∈ sortedPoolOf ge targetLat targetLon canonicalAddresses features
      ↔ x ∈ poolOf ge targetLat targetLon canonicalAddresses features := by
  unfold sortedPoolOf
  exact List.mem_insertionSort candBefore

theorem pickFrom_confidence_iff {sorted : List ScoredCandidate} {b : ScoredCandidate}
    (h : (pickFrom sorted).best = some b) :
    ((pickFrom sorted).confidence = "high" ↔ (b.contains ∧ 60 ≤ b.addr_bonus))
    ∧ ((pickFrom sorted).confidence = "medium"
        ↔ ((b.contains ∧ b.addr_bonus < 60) ∨ (¬b.contains ∧ 60 ≤ b.addr_bonus)))
    ∧ ((pickFrom sorted).confidence = "low" ↔ (¬b.contains ∧ b.addr_bonus < 60)) := by
  rcases sorted with _ | ⟨b0, t⟩
  · simp [pickFrom] at h
  · have hb : b0 = b := by simpa [pickFrom] using h
    subst hb
    by_cases hc : b0.contains = true <;> by_cases ha : 60 ≤ b0.addr_bonus <;>
      rcases t with _ | ⟨s0, t2⟩ <;>
      simp [pickFrom, hc, ha] <;>
      first
        | omega
        | (split_ifs with hm <;> simp_all <;> omega)

theorem take15_two {l : List ScoredCandidate} {b s : ScoredCandidate}
    {rest : List ScoredCandidate} (h : l.take 15 = b :: s :: rest) :
    l.head? = some b ∧ l[1]? = some s := by
  rcases l with _ | ⟨x, _ | ⟨y, t⟩⟩ <;> simp_all

/-! ## Claims C3, C4, C5 -/

/-- C3: for every footprint candidate set in which at least one valid
polygon contains the target point, the selected candidate is a containing
polygon; in particular, a candidate that does not contain the point is
never selected over one that does, even when the non-containing candidate
has a higher address bonus. -/
theorem claim_C3_containment_priority (ge : GeoEnv) (features : List Feature)
    (targetLat targetLon : ℚ) (canonicalAddresses : List String) (f : Feature)
    (hmem : f ∈ features) (hval : ge.validGeometry f.geometry = true)
    (hcont : ge.containsPoint targetLat targetLon f.geometry = true) :
    ∃ b, (pickBest ge features targetLat targetLon canonicalAddresses).best = some b
      ∧ b.contains = true := by
  have hfv : f ∈ validFeaturesOf ge features := List.mem_filter.mpr ⟨hmem, by simpa using hval⟩
  have hcs : scoreFeature ge targetLat targetLon canonicalAddresses f
      ∈ scoredOf ge targetLat targetLon canonicalAddresses features :=
    List.mem_map_of_mem _ hfv
  have hcc : (scoreFeature ge targetLat targetLon canonicalAddresses f).contains = true := hcont
  have hcontaining : scoreFeature ge targetLat targetLon canonicalAddresses f
      ∈ (scoredOf ge targetLat targetLon canonicalAddresses features).filter
          (fun x => x.contains) :=
    List.mem_filter.mpr ⟨hcs, by simpa using hcc⟩
  have hpool : poolOf ge targetLat targetLon canonicalAddresses features
      = (scoredOf ge targetLat targetLon canonicalAddresses features).filter
          (fun x => x.contains) := by
    unfold poolOf
    have hne : ((scoredOf ge targetLat targetLon canonicalAddresses features).filter
        (fun x => x.contains)).isEmpty = false := by
      cases hh : (scoredOf ge targetLat targetLon canonicalAddresses features).filter
          (fun x => x.contains) with
      | nil => rw [hh] at hcontaining; cases hcontaining
      | cons a t => rfl
    simp [hne]
  have hpoolmem : scoreFeature ge targetLat targetLon canonicalAddresses f
      ∈ poolOf ge targetLat targetLon canonicalAddresses features := hpool ▸ hcontaining
  have hfe : features.isEmpty = false := by
    cases hh : features with
    | nil => rw [hh] at hmem; cases hmem
    | cons a t => rfl
  have hve : (validFeaturesOf ge features).isEmpty = false := by
    cases hh : validFeaturesOf ge features with
    | nil => rw [hh] at hfv; cases hfv
    | cons a t => rfl
  have hse : (scoredOf ge targetLat targetLon canonicalAddresses features).isEmpty = false := by
    cases hh : scoredOf ge targetLat targetLon canonicalAddresses features with
    | nil => rw [hh] at hcs; cases hcs
    | cons a t => rfl
  have hpb : pickBest ge features targetLat targetLon canonicalAddresses
      = pickFrom (sortedPoolOf ge targetLat targetLon canonicalAddresses features) := by
    unfold pickBest
    simp [hfe, hve, hse]
  have hsortmem : scoreFeature ge targetLat targetLon canonicalAddresses f
      ∈ sortedPoolOf ge targetLat targetLon canonicalAddresses features :=
    mem_sortedPool.mpr hpoolmem
  cases hs : sortedPoolOf ge targetLat targetLon canonicalAddresses features with
  | nil => rw [hs] at hsortmem; cases hsortmem
  | cons b t =>
    refine ⟨b, ?_, ?_⟩
    · rw [hpb, pickFrom_best, hs]
      rfl
    · have hbmem : b ∈ poolOf ge targetLat targetLon canonicalAddresses features := by
        have hb : b ∈ sortedPoolOf ge targetLat targetLon canonicalAddresses features := by
          rw [hs]; exact List.mem_cons_self b t
        exact mem_sortedPool.mp hb
      rw [hpool] at hbmem
      simpa using (List.mem_filter.mp hbmem).2

/-- C3 witness: a containing polygon with no address bonus beats a
non-containing one with a +180 address bonus. -/
theorem claim_C3_witness :
    ∃ b, (pickBest geContainsA [featB, featA] 45.8 15.98 ["Teslina 14, Zagreb"]).best = some b
      ∧ b.contains = true :=
  claim_C3_containment_priority geContainsA [featB, featA] 45.8 15.98
    ["Teslina 14, Zagreb"] featA (by decide) (by decide) (by decide)

/-- C4: for every footprint match with a best candidate, the assigned
confidence is `high` exactly when the best candidate both contains the
point and has a strong (≥ 60) address bonus, `medium` exactly when it has
containment alone or a strong address bonus alone, and `low` otherwise
(the ambiguity downgrade can only fire when the initial assignment is
already `low`, so the characterisation needs no extra proviso). -/
theorem claim_C4_confidence_characterisation (ge : GeoEnv) (features : List Feature)
    (targetLat targetLon : ℚ) (canonicalAddresses : List String) (b : ScoredCandidate)
    (h : (pickBest ge features targetLat targetLon canonicalAddresses).best = some b) :
    ((pickBest ge features targetLat targetLon canonicalAddresses).confidence = "high"
      ↔ (b.contains ∧ 60 ≤ b.addr_bonus))
    ∧ ((pickBest ge features targetLat targetLon canonicalAddresses).confidence = "medium"
      ↔ ((b.contains ∧ b.addr_bonus < 60) ∨ (¬b.contains ∧ 60 ≤ b.addr_bonus)))
    ∧ ((pickBest ge features targetLat targetLon canonicalAddresses).confidence = "low"
      ↔ (¬b.contains ∧ b.addr_bonus < 60)) := by
  have he := pickBest_eq_pickFrom h
  rw [he] at h ⊢
  exact pickFrom_confidence_iff h

/-- C4 witness: containment without an address bonus yields `medium`. -/
theorem claim_C4_witness :
    (pickBest geContainsA [featB, featA] 45.8 15.98 ["Teslina 14, Zagreb"]).confidence
      = "medium" :=
  (claim_C4_confidence_characterisation geContainsA [featB, featA] 45.8 15.98
      ["Teslina 14, Zagreb"] (scoreFeature geContainsA 45.8 15.98 ["Teslina 14, Zagreb"] featA)
      (by decide)).2.1.mpr (by decide)

/-- C5: for every candidate pool whose top two ranked candidates have
scores within the 80-point ambiguity margin of each other, where neither
has containment nor a strong (≥ 60) address bonus, the result confidence is
`low` and the strategy is `ambiguous_top2`. -/
theorem claim_C5_ambiguity_downgrade (ge : GeoEnv) (features : List Feature)
    (targetLat targetLon : ℚ) (canonicalAddresses : List String)
    (b s : ScoredCandidate) (rest : List ScoredCandidate)
    (htop : (pickBest ge features targetLat targetLon canonicalAddresses).topCandidates
      = b :: s :: rest)
    (hbc : b.contains = false) (hsc : s.contains = false)
    (hba : b.addr_bonus < 60) (hsa : s.addr_bonus < 60)
    (hm : |b.score - s.score| < 80) :
    (pickBest ge features targetLat targetLon canonicalAddresses).confidence = "low"
    ∧ (pickBest ge features targetLat targetLon canonicalAddresses).strategy
      = "ambiguous_top2" := by
  have hne : (pickBest ge features targetLat targetLon canonicalAddresses).topCandidates
      ≠ [] := by
    rw [htop]; simp
  have he := pickBest_eq_pickFrom_of_top hne
  rw [he] at htop ⊢
  rw [pickFrom_topCandidates] at htop
  obtain ⟨hhead, hsecond⟩ := take15_two htop
  rcases hs2 : sortedPoolOf ge targetLat targetLon canonicalAddresses features
    with _ | ⟨b0, t⟩
  · rw [hs2] at hhead; cases hhead
  · rw [hs2] at hhead hsecond
    have hb0 : b0 = b := by simpa using hhead
    subst hb0
    rcases t with _ | ⟨s0, t2⟩
    · simp at hsecond
    · have hs0 : s0 = s := by simpa using hsecond
      subst hs0
      constructor <;> simp [pickFrom, hbc, hba, hm]

/-- C5 witness: two identically-scored, non-containing, bonus-free
candidates are downgraded to `low` / `ambiguous_top2`. -/
theorem claim_C5_witness :
    (pickBest geFlat [featA, featD] 45.8 15.98 []).confidence = "low"
    ∧ (pickBest geFlat [featA, featD] 45.8 15.98 []).strategy = "ambiguous_top2" :=
  claim_C5_ambiguity_downgrade geFlat [featA, featD] 45.8 15.98 []
    (scoreFeature geFlat 45.8 15.98 [] featA) (scoreFeature geFlat 45.8 15.98 [] featD) []
    (by decide) (by decide) (by decide) (by decide) (by decide) (by decide)

/-! ## Helper lemmas: singleton picks, the radius ladder, merging -/

theorem insertionSort_singleton (c : ScoredCandidate) :
    List.insertionSort candBefore [c] = [c] := by
  simp [List.insertionSort, List.orderedInsert]

theorem sortedPool_singleton (ge : GeoEnv) (targetLat targetLon : ℚ)
    (canonicalAddresses : List String) (f : Feature)
    (hval : ge.validGeometry f.geometry = true) :
    sortedPoolOf ge targetLat targetLon canonicalAddresses [f]
      = [scoreFeature ge targetLat targetLon canonicalAddresses f] := by
  unfold sortedPoolOf poolOf scoredOf validFeaturesOf
  by_cases hc : (scoreFeature ge targetLat targetLon canonicalAddresses f).contains = true <;>
    simp [hval, hc, insertionSort_singleton]

theorem pickBest_singleton (ge : GeoEnv) (targetLat targetLon : ℚ)
    (canonicalAddresses : List String) (f : Feature)
    (hval : ge.validGeometry f.geometry = true) :
    (pickBest ge [f] targetLat targetLon canonicalAddresses).best
      = some (scoreFeature ge targetLat targetLon canonicalAddresses f) := by
  unfold pickBest
  simp only [validFeaturesOf, scoredOf]
  simp [hval, sortedPool_singleton ge targetLat targetLon canonicalAddresses f hval,
    pickFrom_best]

theorem runLadder_all_fail (ge : GeoEnv) (fe : FetchEnv) (targetLat targetLon : ℚ)
    (canonicalAddresses : List String) :
    ∀ (steps tried : List Nat),
      (∀ r feats, r ∈ steps → fe.radiusFeatures r = some feats →
        (pickBest ge feats targetLat targetLon canonicalAddresses).best = none) →
      runRadiusLadder ge fe targetLat targetLon canonicalAddresses steps tried
        = { geometry := none, osm_refs := [], strategy := "no_match_found",
            confidence := "low", topCandidates := [], radii_tried := tried ++ steps }
  | [], tried, _ => by simp [runRadiusLadder]
  | r :: rest, tried, h => by
    have hrest : ∀ r2 feats, r2 ∈ rest → fe.radiusFeatures r2 = some feats →
        (pickBest ge feats targetLat targetLon canonicalAddresses).best = none :=
      fun r2 feats hm hf => h r2 feats (List.mem_cons_of_mem r hm) hf
    cases hf : fe.radiusFeatures r with
    | none =>
      simp only [runRadiusLadder, hf]
      rw [runLadder_all_fail ge fe targetLat targetLon canonicalAddresses rest (tried ++ [r])
        hrest]
      simp
    | some feats =>
      have hb := h r feats (List.mem_cons_self r rest) hf
      simp only [runRadiusLadder, hf, hb]
      rw [runLadder_all_fail ge fe targetLat targetLon canonicalAddresses rest (tried ++ [r])
        hrest]
      simp

theorem runLadder_skip (ge : GeoEnv) (fe : FetchEnv) (targetLat targetLon : ℚ)
    (canonicalAddresses : List String) :
    ∀ (pre steps tried : List Nat),
      (∀ r feats, r ∈ pre → fe.radiusFeatures r = some feats →
        (pickBest ge feats targetLat targetLon canonicalAddresses).best = none) →
      runRadiusLadder ge fe targetLat targetLon canonicalAddresses (pre ++ steps) tried
        = runRadiusLadder ge fe targetLat targetLon canonicalAddresses steps (tried ++ pre)
  | [], steps, tried, _ => by simp
  | r :: pre2, steps, tried, h => by
    have hpre2 : ∀ r2 feats, r2 ∈ pre2 → fe.radiusFeatures r2 = some feats →
        (pickBest ge feats targetLat targetLon canonicalAddresses).best = none :=
      fun r2 feats hm hf => h r2 feats (List.mem_cons_of_mem r hm) hf
    cases hf : fe.radiusFeatures r with
    | none =>
      simp only [List.cons_append, runRadiusLadder, hf, List.append_eq]
      rw [runLadder_skip ge fe targetLat targetLon canonicalAddresses pre2 steps (tried ++ [r])
        hpre2]
      simp
    | some feats =>
      have hb := h r feats (List.mem_cons_self r pre2) hf
      simp only [List.cons_append, runRadiusLadder, hf, hb, List.append_eq]
      rw [runLadder_skip ge fe targetLat targetLon canonicalAddresses pre2 steps (tried ++ [r])
        hpre2]
      simp

theorem mergeBuildingParts_eq {b : ScoredCandidate} {cands : List ScoredCandidate}
    (hpart : b.tag_class = "building_part")
    (hlen : 2 ≤ (qualifyingParts b cands).length)
    (hpolys : partsPolys (qualifyingParts b cands) ≠ []) :
    mergeBuildingParts b cands
      = some (Geometry.multiPolygon (partsPolys (qualifyingParts b cands)),
              (qualifyingParts b cands).map fun p => p.osm_ref) := by
  unfold mergeBuildingParts
  rw [if_neg (by simp [hpart])]
  rw [if_neg (by omega)]
  rw [if_neg (by simpa using hpolys)]

theorem startsWithL_append_self (pat rest : List Char) :
    startsWithL pat (pat ++ rest) = true := by
  induction pat with
  | nil => rfl
  | cons c cs ih => simp [startsWithL, ih]

theorem containsSeq_append_mid (A pat B : List Char) :
    containsSeq pat (A ++ (pat ++ B)) = true := by
  unfold containsSeq
  rw [List.any_eq_true]
  refine ⟨A.length, List.mem_range.mpr ?_, ?_⟩
  · simp only [List.length_append]
    omega
  · rw [List.drop_left]
    exact startsWithL_append_self pat B

theorem strContains_radius_parts (pre suf : String) :
    strContains (pre ++ "m_parts_merged_" ++ suf) "parts_merged" = true := by
  unfold strContains
  have hd : (pre ++ "m_parts_merged_" ++ suf).data
      = (pre.data ++ ['m', '_']) ++ ("parts_merged".data ++ ('_' :: suf.data)) := by
    simp [String.data_append, List.append_assoc]
  rw [hd]
  exact containsSeq_append_mid _ _ _

/-! ## Claim C1 -/

/-- C1 counterexample: a record with a manual override whose referenced
object (`featB`, alias `way/2`) is fetchable and passes geometry
validation, yet — because the resolved point lies outside it and no
address matches — the matcher returns confidence `low` (not `high`) and
strategy `override_direct_fallback_matching` (not `override_direct`). -/
theorem claim_C1_counterexample :
    geFlat.validGeometry featB.geometry = true
    ∧ (findGeometryWithFallback geFlat feOverrideB 45.8 15.98 [] row0 (some ovB)).geometry
        = some featB.geometry
    ∧ (findGeometryWithFallback geFlat feOverrideB 45.8 15.98 [] row0 (some ovB)).confidence
        = "low"
    ∧ (findGeometryWithFallback geFlat feOverrideB 45.8 15.98 [] row0 (some ovB)).strategy
        = "override_direct_fallback_matching" := by
  refine ⟨by decide, by decide, by decide, by decide⟩

/-- C1 (amended): for every record with a manual override whose referenced
object is fetchable (the direct fetch yields exactly that object) and
passes geometry validation, the matcher returns that exact object's
geometry regardless of any competing computed score; the strategy is
`override_direct_` followed by the pick's sub-strategy, and the confidence
is the one computed by candidate scoring (not necessarily `high`). -/
theorem claim_C1_override_supremacy (ge : GeoEnv) (fe : FetchEnv) (targetLat targetLon : ℚ)
    (canonicalAddresses : List String) (row : GeocodedRow) (ov : OverrideRow) (f : Feature)
    (hfe : fe.overrideFeatures = some [f])
    (hval : ge.validGeometry f.geometry = true) :
    (findGeometryWithFallback ge fe targetLat targetLon canonicalAddresses row
        (some ov)).geometry = some f.geometry
    ∧ (findGeometryWithFallback ge fe targetLat targetLon canonicalAddresses row
        (some ov)).osm_refs = [f.id]
    ∧ (findGeometryWithFallback ge fe targetLat targetLon canonicalAddresses row
        (some ov)).strategy
        = "override_direct_"
          ++ (pickBest ge [f] targetLat targetLon canonicalAddresses).strategy
    ∧ (findGeometryWithFallback ge fe targetLat targetLon canonicalAddresses row
        (some ov)).confidence
        = (pickBest ge [f] targetLat targetLon canonicalAddresses).confidence := by
  have hpb := pickBest_singleton ge targetLat targetLon canonicalAddresses f hval
  unfold findGeometryWithFallback
  rw [hfe]
  simp only [hpb]
  exact ⟨rfl, rfl, trivial, trivial⟩

/-- C1 witness: the amended theorem applied to the concrete override
scenario of the counterexample. -/
theorem claim_C1_witness :
    (findGeometryWithFallback geFlat feOverrideB 45.8 15.98 [] row0 (some ovB)).geometry
      = some featB.geometry
    ∧ (findGeometryWithFallback geFlat feOverrideB 45.8 15.98 [] row0 (some ovB)).osm_refs
      = [featB.id]
    ∧ (findGeometryWithFallback geFlat feOverrideB 45.8 15.98 [] row0 (some ovB)).strategy
      = "override_direct_" ++ (pickBest geFlat [featB] 45.8 15.98 []).strategy
    ∧ (findGeometryWithFallback geFlat feOverrideB 45.8 15.98 [] row0 (some ovB)).confidence
      = (pickBest geFlat [featB] 45.8 15.98 []).confidence :=
  claim_C1_override_supremacy geFlat feOverrideB 45.8 15.98 [] row0 ovB featB
    (by decide) (by decide)

/-! ## Claim C7 -/

/-- C7: for every record where neither the override path nor the
trusted-reference path yields a geometry and every radius step of the
ladder produces no valid candidate, the matcher returns `no_match_found`
with a null geometry, the record's status is `not_found`, and
`radii_tried` lists every radius step attempted — 80, 120, 160, 200
metres, plus the extended 350 m step exactly when the geocode
classification is a place rather than a building — in ascending order
with no duplicates. -/
theorem claim_C7_not_found_radii (ge : GeoEnv) (fe : FetchEnv) (targetLat targetLon : ℚ)
    (canonicalAddresses : List String) (row : GeocodedRow) (override : Option OverrideRow)
    (hov : ∀ feats, override.isSome → fe.overrideFeatures = some feats →
      (pickBest ge feats targetLat targetLon canonicalAddresses).best = none)
    (htr : ∀ feats, (isTrustedGeocodeRef row).isSome → fe.trustedFeatures = some feats →
      (pickBest ge feats targetLat targetLon canonicalAddresses).best = none)
    (hrad : ∀ r feats, fe.radiusFeatures r = some feats →
      (pickBest ge feats targetLat targetLon canonicalAddresses).best = none) :
    (findGeometryWithFallback ge fe targetLat targetLon canonicalAddresses row
        override).geometry = none
    ∧ (findGeometryWithFallback ge fe targetLat targetLon canonicalAddresses row
        override).strategy = "no_match_found"
    ∧ recordStatus ge (findGeometryWithFallback ge fe targetLat targetLon canonicalAddresses
        row override) = "not_found"
    ∧ (findGeometryWithFallback ge fe targetLat targetLon canonicalAddresses row
        override).radii_tried
      = (if row.geocode_category = "place" ∧ row.geocode_addresstype ≠ "building" then
          [80, 120, 160, 200, 350]
        else [80, 120, 160, 200])
    ∧ List.Chain' (· < ·) (findGeometryWithFallback ge fe targetLat targetLon
        canonicalAddresses row override).radii_tried
    ∧ (findGeometryWithFallback ge fe targetLat targetLon canonicalAddresses row
        override).radii_tried.Nodup := by
  have hfind : findGeometryWithFallback ge fe targetLat targetLon canonicalAddresses row
      override
      = runRadiusLadder ge fe targetLat targetLon canonicalAddresses (radiusStepsFor row) [] := by
    unfold findGeometryWithFallback
    cases override with
    | none =>
      cases hts : isTrustedGeocodeRef row with
      | none => rfl
      | some t =>
        cases htf : fe.trustedFeatures with
        | none => rfl
        | some feats =>
          have hb := htr feats (by rw [hts]; rfl) htf
          simp only [hb]
    | some ov =>
      cases hof : fe.overrideFeatures with
      | none =>
        cases hts : isTrustedGeocodeRef row with
        | none => rfl
        | some t =>
          cases htf : fe.trustedFeatures with
          | none => rfl
          | some feats =>
            have hb := htr feats (by rw [hts]; rfl) htf
            simp only [hb]
      | some feats =>
        have hb := hov feats rfl hof
        simp only [hb]
        cases hts : isTrustedGeocodeRef row with
        | none => rfl
        | some t =>
          cases htf : fe.trustedFeatures with
          | none => rfl
          | some feats2 =>
            have hb2 := htr feats2 (by rw [hts]; rfl) htf
            simp only [hb2]
  have hlad := runLadder_all_fail ge fe targetLat targetLon canonicalAddresses
    (radiusStepsFor row) []
    (fun r feats _ hf => hrad r feats hf)
  have hsteps : radiusStepsFor row
      = (if row.geocode_category = "place" ∧ row.geocode_addresstype ≠ "building" then
          [80, 120, 160, 200, 350]
        else [80, 120, 160, 200]) := by
    unfold radiusStepsFor lowConfidenceGeocode RADIUS_M
    by_cases hp : row.geocode_category = "place" <;>
      by_cases hb : row.geocode_addresstype = "building" <;>
      simp [hp, hb]
  rw [hfind, hlad, hsteps]
  refine ⟨rfl, rfl, rfl, by simp, ?_, ?_⟩ <;> split_ifs <;> simp

/-- C7 witness: with a place-classified geocode and every Overpass fetch
failing, the ladder tries 80, 120, 160, 200 and 350 metres and reports
`not_found`. -/
theorem claim_C7_witness :
    (findGeometryWithFallback geFlat feEmpty 45.8 15.98 [] rowPlace none).geometry = none
    ∧ (findGeometryWithFallback geFlat feEmpty 45.8 15.98 [] rowPlace none).strategy
      = "no_match_found"
    ∧ recordStatus geFlat (findGeometryWithFallback geFlat feEmpty 45.8 15.98 [] rowPlace none)
      = "not_found"
    ∧ (findGeometryWithFallback geFlat feEmpty 45.8 15.98 [] rowPlace none).radii_tried
      = (if rowPlace.geocode_category = "place" ∧ rowPlace.geocode_addresstype ≠ "building" then
          [80, 120, 160, 200, 350]
        else [80, 120, 160, 200])
    ∧ List.Chain' (· < ·) (findGeometryWithFallback geFlat feEmpty 45.8 15.98 [] rowPlace
        none).radii_tried
    ∧ (findGeometryWithFallback geFlat feEmpty 45.8 15.98 [] rowPlace none).radii_tried.Nodup :=
  claim_C7_not_found_radii geFlat feEmpty 45.8 15.98 [] rowPlace none
    (fun feats h _ => by simp at h)
    (fun feats h _ => by simp [isTrustedGeocodeRef, rowPlace] at h)
    (fun r feats hf => by simp [feEmpty] at hf)

/-! ## Claim C6 -/

/-- C6 counterexample: three qualifying disjoint building parts are merged
into one MultiPolygon with all three references, but — because the pick was
downgraded to `ambiguous_top2` (equal scores, no containment, no address
bonus) — the record's reported status is `ambiguous`, not
`matched_parts_merged`. -/
theorem claim_C6_counterexample :
    strContains (findGeometryWithFallback geFlat feParts 45.8 15.98 [] row0 none).strategy
      "parts_merged" = true
    ∧ (findGeometryWithFallback geFlat feParts 45.8 15.98 [] row0 none).osm_refs
      = ["way/11", "way/12", "way/13"]
    ∧ recordStatus geFlat (findGeometryWithFallback geFlat feParts 45.8 15.98 [] row0 none)
      = "ambiguous" := by
  refine ⟨by decide, by decide, by decide⟩

/-- C6 (amended): for every radius-ladder match whose winning candidate is
a building sub-part, if at least two sub-parts (including the winner)
among the reported top candidates lie within the 80 m distance window (to
the target point) and within 600 score points of the winner, the returned
geometry is a single MultiPolygon that unions their polygons, the
object-reference list contains all contributing identifiers, and the
strategy records `parts_merged`; the status is `matched_parts_merged`
provided the pick was not downgraded to `ambiguous_top2` and the merged
geometry passes validation. -/
theorem claim_C6_parts_merging (ge : GeoEnv) (fe : FetchEnv) (targetLat targetLon : ℚ)
    (canonicalAddresses : List String) (row : GeocodedRow)
    (pre : List Nat) (r : Nat) (post : List Nat) (feats : List Feature)
    (b : ScoredCandidate) (parts : List ScoredCandidate)
    (htr : isTrustedGeocodeRef row = none)
    (hsteps : radiusStepsFor row = pre ++ r :: post)
    (hpre : ∀ r2 feats2, r2 ∈ pre → fe.radiusFeatures r2 = some feats2 →
      (pickBest ge feats2 targetLat targetLon canonicalAddresses).best = none)
    (hr : fe.radiusFeatures r = some feats)
    (hb : (pickBest ge feats targetLat targetLon canonicalAddresses).best = some b)
    (hpart : b.tag_class = "building_part")
    (hparts : parts = qualifyingParts b
      (pickBest ge feats targetLat targetLon canonicalAddresses).topCandidates)
    (hwin : b ∈ parts) (hlen : 2 ≤ parts.length) (hpolys : partsPolys parts ≠ []) :
    (findGeometryWithFallback ge fe targetLat targetLon canonicalAddresses row none).geometry
      = some (Geometry.multiPolygon (partsPolys parts))
    ∧ (findGeometryWithFallback ge fe targetLat targetLon canonicalAddresses row
        none).osm_refs = parts.map (fun p => p.osm_ref)
    ∧ strContains (findGeometryWithFallback ge fe targetLat targetLon canonicalAddresses row
        none).strategy "parts_merged" = true
    ∧ (strContains (findGeometryWithFallback ge fe targetLat targetLon canonicalAddresses row
          none).strategy "ambiguous" = false →
        ge.validGeometry (Geometry.multiPolygon (partsPolys parts)) = true →
        recordStatus ge (findGeometryWithFallback ge fe targetLat targetLon canonicalAddresses
          row none) = "matched_parts_merged")
    := by
  subst hparts
  have hmerge := mergeBuildingParts_eq hpart hlen hpolys
  have hfind : findGeometryWithFallback ge fe targetLat targetLon canonicalAddresses row none
      = { geometry := some (Geometry.multiPolygon (partsPolys (qualifyingParts b
            (pickBest ge feats targetLat targetLon canonicalAddresses).topCandidates))),
          osm_refs := (qualifyingParts b
            (pickBest ge feats targetLat targetLon canonicalAddresses).topCandidates).map
              (fun p => p.osm_ref),
          strategy := "radius_" ++ toString r ++ "m_parts_merged_"
            ++ (pickBest ge feats targetLat targetLon canonicalAddresses).strategy,
          confidence := (pickBest ge feats targetLat targetLon canonicalAddresses).confidence,
          topCandidates := (pickBest ge feats targetLat targetLon
            canonicalAddresses).topCandidates,
          radii_tried := pre ++ [r] } := by
    unfold findGeometryWithFallback
    rw [htr]
    rw [hsteps, runLadder_skip ge fe targetLat targetLon canonicalAddresses pre (r :: post)
      [] hpre]
    simp only [List.nil_append, runRadiusLadder, hr, hb, hmerge]
  rw [hfind]
  have hstrat : strContains ("radius_" ++ toString r ++ "m_parts_merged_"
      ++ (pickBest ge feats targetLat targetLon canonicalAddresses).strategy)
      "parts_merged" = true := by
    have := strContains_radius_parts ("radius_" ++ toString r)
      (pickBest ge feats targetLat targetLon canonicalAddresses).strategy
    simpa [String.append_assoc] using this
  refine ⟨rfl, rfl, hstrat, ?_⟩
  intro hna hvalid
  unfold recordStatus
  simp only [hstrat, hna, hvalid]
  simp

/-- C6 witness: three disjoint qualifying building parts yield one
MultiPolygon with part count 3, all three object references, and status
`matched_parts_merged`. -/
theorem claim_C6_witness :
    (findGeometryWithFallback geNoContain feParts 45.8 15.98 [] row0 none).geometry
      = some (Geometry.multiPolygon [[sqr 0 0], [sqr 2 0], [sqr 4 0]])
    ∧ (findGeometryWithFallback geNoContain feParts 45.8 15.98 [] row0 none).osm_refs
      = ["way/11", "way/12", "way/13"]
    ∧ recordStatus geNoContain
        (findGeometryWithFallback geNoContain feParts 45.8 15.98 [] row0 none)
      = "matched_parts_merged" := by
  obtain ⟨h1, h2, h3, h4⟩ := claim_C6_parts_merging geNoContain feParts 45.8 15.98 [] row0
    [] 80 [120, 160, 200] [partA, partB, partC]
    (scoreFeature geNoContain 45.8 15.98 [] partA)
    [scoreFeature geNoContain 45.8 15.98 [] partA,
     scoreFeature geNoContain 45.8 15.98 [] partB,
     scoreFeature geNoContain 45.8 15.98 [] partC]
    (by decide) (by decide) (fun r2 feats2 hm _ => by simp at hm) (by decide) (by decide)
    (by decide) (by decide) (by decide) (by decide) (by decide)
  refine ⟨?_, ?_, h4 (by decide) (by decide)⟩
  · rw [h1]
    decide
  · rw [h2]
    decide

/-! ## Helper lemmas: geofence score bounds and hit selection -/


theorem scoreGeocodeEntry_bounds (e : GeocodeCacheEntry) (q : String) (la lo : ℚ)
    (hlat : e.lat = some la) (hlon : e.lon = some lo) :
    (isWithinZagrebBounds e.lat e.lon = true → -700 ≤ scoreGeocodeEntry e q)
    ∧ (isWithinZagrebBounds e.lat e.lon = false → scoreGeocodeEntry e q ≤ -9320) := by
  obtain ⟨elat, elon, dn, ot, raw⟩ := e
  simp only at hlat hlon
  subst hlat
  subst hlon
  simp only [scoreGeocodeEntry]
  rcases hhn : firstHouseNumber q.data with _ | hn <;>
    constructor <;> intro h <;> simp only [h] <;> split_ifs <;>
      first | contradiction | omega

theorem scoreNominatimHit_bounds (hn : Option (List Char)) (hit : NominatimHit) :
    (isWithinZagrebBounds hit.lat hit.lon = true → -80 ≤ scoreNominatimHit hn hit)
    ∧ (isWithinZagrebBounds hit.lat hit.lon = false → scoreNominatimHit hn hit ≤ -9680) := by
  unfold scoreNominatimHit
  rcases hn with _ | hn <;> rcases hpr : hit.place_rank with _ | pr <;>
    constructor <;> intro h <;> simp only [h, hpr, min_def] <;> split_ifs <;>
      first | contradiction | omega

theorem chooseNominatimHit_inBounds (hn : Option (List Char)) (data : List NominatimHit)
    (h : NominatimHit) (hmem : h ∈ data)
    (hin : isWithinZagrebBounds h.lat h.lon = true) :
    ∃ w, chooseNominatimHit hn data = some w
      ∧ isWithinZagrebBounds w.lat w.lon = true := by
  haveI : IsTotal NominatimHit (hitBefore hn) :=
    ⟨fun a b => le_total (scoreNominatimHit hn b) (scoreNominatimHit hn a)⟩
  haveI : IsTrans NominatimHit (hitBefore hn) :=
    ⟨fun _ _ _ hab hbc => le_trans hbc hab⟩
  cases hs : List.insertionSort (hitBefore hn) data with
  | nil =>
    have hperm := List.perm_insertionSort (hitBefore hn) data
    rw [hs] at hperm
    rw [← hperm.nil_eq] at hmem
    cases hmem
  | cons w tl =>
    refine ⟨w, by unfold chooseNominatimHit; rw [hs]; rfl, ?_⟩
    by_cases hw : isWithinZagrebBounds w.lat w.lon = true
    · exact hw
    · exfalso
      have hwf : isWithinZagrebBounds w.lat w.lon = false := by
        cases hb : isWithinZagrebBounds w.lat w.lon
        · rfl
        · exact absurd hb hw
      have hwu : scoreNominatimHit hn w ≤ -9680 :=
        (scoreNominatimHit_bounds hn w).2 hwf
      have hhl : -80 ≤ scoreNominatimHit hn h :=
        (scoreNominatimHit_bounds hn h).1 hin
      have hmem2 : h ∈ List.insertionSort (hitBefore hn) data :=
        (List.mem_insertionSort (hitBefore hn)).mpr hmem
      rw [hs] at hmem2
      rcases List.mem_cons.mp hmem2 with heq | htl
      · rw [heq] at hin
        rw [hin] at hwf
        cases hwf
      · have hsorted : List.Sorted (hitBefore hn) (List.insertionSort (hitBefore hn) data) :=
          List.sorted_insertionSort (hitBefore hn) data
        rw [hs] at hsorted
        have hr : hitBefore hn w h := List.rel_of_sorted_cons hsorted h htl
        unfold hitBefore at hr
        omega

/-! ## Claim C2 -/

/-- C2: a geocode hit whose coordinate falls outside the Zagreb bounding
box is never selected over an in-bounds hit: at the query level
(`scoreGeocodeEntry`) and at the hit level (the `score` closure of
`geocodeNominatim`) every out-of-bounds hit scores strictly below every
in-bounds hit with finite coordinates, whatever its category/address-type
bonuses; consequently the hit chosen from a response containing an
in-bounds hit is itself in-bounds. -/
theorem claim_C2_geofence :
    (∀ (e1 e2 : GeocodeCacheEntry) (q1 q2 : String) (la1 lo1 la2 lo2 : ℚ),
      e1.lat = some la1 → e1.lon = some lo1 → e2.lat = some la2 → e2.lon = some lo2 →
      isWithinZagrebBounds e1.lat e1.lon = true →
      isWithinZagrebBounds e2.lat e2.lon = false →
      scoreGeocodeEntry e2 q2 < scoreGeocodeEntry e1 q1)
    ∧ (∀ (hn : Option (List Char)) (h1 h2 : NominatimHit),
      isWithinZagrebBounds h1.lat h1.lon = true →
      isWithinZagrebBounds h2.lat h2.lon = false →
      scoreNominatimHit hn h2 < scoreNominatimHit hn h1)
    ∧ (∀ (hn : Option (List Char)) (data : List NominatimHit) (h : NominatimHit),
      h ∈ data → isWithinZagrebBounds h.lat h.lon = true →
      ∃ w, chooseNominatimHit hn data = some w
        ∧ isWithinZagrebBounds w.lat w.lon = true) := by
  refine ⟨?_, ?_, chooseNominatimHit_inBounds⟩
  · intro e1 e2 q1 q2 la1 lo1 la2 lo2 h1a h1o h2a h2o hin hout
    have hb1 := (scoreGeocodeEntry_bounds e1 q1 la1 lo1 h1a h1o).1 hin
    have hb2 := (scoreGeocodeEntry_bounds e2 q2 la2 lo2 h2a h2o).2 hout
    omega
  · intro hn h1 h2 hin hout
    have hb1 := (scoreNominatimHit_bounds hn h1).1 hin
    have hb2 := (scoreNominatimHit_bounds hn h2).2 hout
    omega

/-- C2 witness: an out-of-bounds hit with every positive bonus scores
below an in-bounds hit with every penalty, at both levels, and the
selection returns the in-bounds hit. -/
theorem claim_C2_witness :
    scoreGeocodeEntry entryOut "Main Street 14" < scoreGeocodeEntry entryIn "Trg 1"
    ∧ scoreNominatimHit (some "14".toList) hitOut < scoreNominatimHit (some "14".toList) hitIn
    ∧ ∃ w, chooseNominatimHit (some "14".toList) [hitOut, hitIn] = some w
        ∧ isWithinZagrebBounds w.lat w.lon = true :=
  ⟨claim_C2_geofence.1 entryIn entryOut "Trg 1" "Main Street 14" 45.8 15.98 44.1 15.2
      rfl rfl rfl rfl (by decide) (by decide),
   claim_C2_geofence.2.1 (some "14".toList) hitIn hitOut (by decide) (by decide),
   claim_C2_geofence.2.2 (some "14".toList) [hitOut, hitIn] hitIn (by decide) (by decide)⟩

/-! ## Helper lemmas: the street regex and the `ulica` rewrite -/

theorem startsWithL_iff {pat l : List Char} :
    startsWithL pat l = true ↔ ∃ t, l = pat ++ t := by
  induction pat generalizing l with
  | nil => simp [startsWithL]
  | cons p ps ih =>
    cases l with
    | nil => simp [startsWithL]
    | cons c cs =>
      simp only [startsWithL, Bool.and_eq_true, decide_eq_true_eq, ih, List.cons_append,
        List.cons.injEq]
      constructor
      · rintro ⟨hp, t, ht⟩
        exact ⟨t, hp.symm, ht⟩
      · rintro ⟨t, hp, ht⟩
        exact ⟨hp.symm, t, ht⟩

theorem containsSeq_iff {pat l : List Char} :
    containsSeq pat l = true ↔ ∃ s t, l = s ++ pat ++ t := by
  unfold containsSeq
  rw [List.any_eq_true]
  constructor
  · rintro ⟨i, _, hw⟩
    obtain ⟨t, ht⟩ := startsWithL_iff.mp hw
    refine ⟨l.take i, t, ?_⟩
    conv_lhs => rw [← List.take_append_drop i l]
    rw [ht, List.append_assoc]
  · rintro ⟨s, t, hl⟩
    refine ⟨s.length, List.mem_range.mpr ?_, ?_⟩
    · subst hl
      simp only [List.length_append]
      omega
    · subst hl
      rw [List.append_assoc, List.drop_left]
      exact startsWithL_append_self pat t

theorem tryTailStreet_spec {s g2 g3 : List Char}
    (h : tryTailStreet s = some (g2, g3)) :
    s = g2 ++ g3 ∧ ∃ c0 g2t, g2 = c0 :: g2t ∧ isWsJS c0 = true := by
  unfold tryTailStreet at h
  have hsplit : s.takeWhile isWsJS ++ s.dropWhile isWsJS = s :=
    List.takeWhile_append_dropWhile isWsJS s
  have hsplit2 : (s.dropWhile isWsJS).takeWhile Char.isDigit
      ++ (s.dropWhile isWsJS).dropWhile Char.isDigit = s.dropWhile isWsJS :=
    List.takeWhile_append_dropWhile Char.isDigit (s.dropWhile isWsJS)
  by_cases hw : (s.takeWhile isWsJS).isEmpty
  · simp [hw] at h
  · simp only [hw, Bool.false_eq_true, if_false] at h
    by_cases hd : ((s.dropWhile isWsJS).takeWhile Char.isDigit).isEmpty
    · simp [hd] at h
    · simp only [hd, Bool.false_eq_true, if_false] at h
      have hwchar : ∃ c0 wt, s.takeWhile isWsJS = c0 :: wt ∧ isWsJS c0 = true := by
        cases hcase : s.takeWhile isWsJS with
        | nil => rw [hcase] at hw; simp at hw
        | cons c0 wt =>
          refine ⟨c0, wt, rfl, ?_⟩
          have hmem : c0 ∈ s.takeWhile isWsJS := by
            rw [hcase]
            exact List.mem_cons_self c0 wt
          exact List.mem_takeWhile_imp hmem
      obtain ⟨c0, wt, hcw, hc0⟩ := hwchar
      cases hr2 : (s.dropWhile isWsJS).dropWhile Char.isDigit with
      | nil =>
        rw [hr2] at h
        injection h with h
        injection h with h1 h2
        subst h1
        subst h2
        constructor
        · conv_lhs => rw [← hsplit, ← hsplit2, hr2]
          simp
        · exact ⟨c0, wt ++ (s.dropWhile isWsJS).takeWhile Char.isDigit, by rw [hcw]; simp, hc0⟩
      | cons c r3 =>
        rw [hr2] at h
        by_cases hca : c.isAlpha && restOkStreet r3
        · simp only [hca, if_true] at h
          injection h with h
          injection h with h1 h2
          subst h1
          subst h2
          constructor
          · conv_lhs => rw [← hsplit, ← hsplit2, hr2]
            simp
          · exact ⟨c0, wt ++ (s.dropWhile isWsJS).takeWhile Char.isDigit ++ [c],
              by rw [hcw]; simp, hc0⟩
        · simp only [hca, Bool.false_eq_true, if_false] at h
          by_cases hok : restOkStreet (c :: r3)
          · simp only [hok, if_true] at h
            injection h with h
            injection h with h1 h2
            subst h1
            subst h2
            constructor
            · conv_lhs => rw [← hsplit, ← hsplit2, hr2]
              simp
            · exact ⟨c0, wt ++ (s.dropWhile isWsJS).takeWhile Char.isDigit,
                by rw [hcw]; simp, hc0⟩
          · simp [hok] at h

theorem matchStreetGo_spec {acc rest g1 g2 g3 : List Char}
    (h : matchStreetGo acc rest = some (g1, g2, g3)) :
    acc.reverse ++ rest = g1 ++ g2 ++ g3
    ∧ (∃ pre, g1 = acc.reverse ++ pre ∧ pre ≠ [])
    ∧ (∃ c0 g2t, g2 = c0 :: g2t ∧ isWsJS c0 = true) := by
  induction rest generalizing acc with
  | nil => simp [matchStreetGo] at h
  | cons c cs ih =>
    unfold matchStreetGo at h
    by_cases hcl : streetLetterClass c
    · simp only [hcl, if_true] at h
      cases ht : tryTailStreet cs with
      | some p =>
        rw [ht] at h
        obtain ⟨pg2, pg3⟩ := p
        injection h with h
        injection h with h1 h2
        injection h2 with h2 h3
        subst h1
        subst h2
        subst h3
        obtain ⟨hdec, hc0⟩ := tryTailStreet_spec ht
        refine ⟨?_, ⟨[c], by simp, by simp⟩, hc0⟩
        rw [hdec]
        simp
      | none =>
        rw [ht] at h
        obtain ⟨hdec, ⟨pre, hpre, hprene⟩, hc0⟩ := ih h
        refine ⟨?_, ⟨c :: pre, ?_, by simp⟩, hc0⟩
        · rw [← hdec]
          simp
        · rw [hpre]
          simp
    · simp [hcl] at h

theorem matchStreet_spec {s g1 g2 g3 : List Char}
    (h : matchStreet s = some (g1, g2, g3)) :
    s = g1 ++ g2 ++ g3 ∧ g1 ≠ []
    ∧ (∃ c0 g2t, g2 = c0 :: g2t ∧ isWsJS c0 = true) := by
  obtain ⟨hdec, ⟨pre, hpre, hprene⟩, hc0⟩ := matchStreetGo_spec h
  refine ⟨by simpa using hdec, ?_, hc0⟩
  rw [hpre]
  simpa using hprene

theorem appendUlicaL_cases (a : List Char) :
    appendUlicaL a = a
    ∨ (∃ g1 g2 g3, matchStreet a = some (g1, g2, g3)
        ∧ hasStreetTypeWord (jsLowerL a) = false
        ∧ (splitWsJS (trimL g1)).length = 1
        ∧ looksLikeCroatianGenitiveAdjective (trimL g1) = true
        ∧ appendUlicaL a = trimL g1 ++ " ulica".toList ++ g2 ++ g3) := by
  by_cases hst : hasStreetTypeWord (jsLowerL a) = true
  · left
    unfold appendUlicaL
    simp [hst]
  · have hst2 : hasStreetTypeWord (jsLowerL a) = false := by simpa using hst
    cases hm : matchStreet a with
    | none =>
      left
      unfold appendUlicaL
      simp [hst2, hm]
    | some g =>
      obtain ⟨g1, g2, g3⟩ := g
      by_cases hcond : (splitWsJS (trimL g1)).length = 1
          ∧ looksLikeCroatianGenitiveAdjective (trimL g1) = true
      · right
        refine ⟨g1, g2, g3, rfl, hst2, hcond.1, hcond.2, ?_⟩
        unfold appendUlicaL
        simp [hst2, hm, hcond.1, hcond.2]
      · left
        unfold appendUlicaL
        rcases Decidable.not_and_iff_or_not.mp hcond with hc | hc
        · simp [hst2, hm, hc]
        · have hc2 : looksLikeCroatianGenitiveAdjective (trimL g1) = false := by
            simpa using hc
          simp [hst2, hm, hc2]

/-- Whitespace characters are fixed by the case map. -/
theorem jsCharToLower_ws {c : Char} (h : isWsJS c = true) : jsCharToLower c = c := by
  simp only [isWsJS, Bool.or_eq_true, decide_eq_true_eq] at h
  rcases h with (((((h | h) | h) | h) | h) | h) | h <;> subst h <;> decide

/-- Whitespace characters are not word characters. -/
theorem wordChar_of_ws {c : Char} (h : isWsJS c = true) : isWordCharJS c = false := by
  simp only [isWsJS, Bool.or_eq_true, decide_eq_true_eq] at h
  rcases h with (((((h | h) | h) | h) | h) | h) | h <;> subst h <;> decide

/-- Inserting `" ulica"` before a whitespace-headed house-number group
produces an address that carries the street-type word `ulica` with JS word
boundaries on both sides. -/
theorem hasStreetTypeWord_insert (name rest : List Char) (c0 : Char)
    (hc0 : isWsJS c0 = true) :
    hasStreetTypeWord (jsLowerL (name ++ " ulica".toList ++ (c0 :: rest))) = true := by
  unfold hasStreetTypeWord
  rw [List.any_eq_true]
  refine ⟨"ulica".toList, by simp [streetTypePatterns], ?_⟩
  unfold hasBoundedOccurrence
  rw [List.any_eq_true]
  have hlower : jsLowerL (name ++ " ulica".toList ++ (c0 :: rest))
      = (jsLowerL name ++ [' ']) ++ ("ulica".toList ++ (c0 :: jsLowerL rest)) := by
    unfold jsLowerL
    rw [List.map_append, List.map_append]
    have h1 : List.map jsCharToLower " ulica".toList = ' ' :: "ulica".toList := by decide
    have h2 : List.map jsCharToLower (c0 :: rest) = c0 :: List.map jsCharToLower rest := by
      simp [jsCharToLower_ws hc0]
    rw [h1, h2]
    simp
  rw [hlower]
  refine ⟨(jsLowerL name ++ [' ']).length, List.mem_range.mpr ?_, ?_⟩
  · simp only [List.length_append, List.length_cons]
    omega
  · rw [Bool.and_eq_true, Bool.and_eq_true]
    have hA : (jsLowerL name ++ [' ']).length = (jsLowerL name).length + 1 := by
      simp
    refine ⟨⟨?_, ?_⟩, ?_⟩
    · rw [List.drop_left]
      rw [startsWithL_iff]
      exact ⟨c0 :: jsLowerL rest, rfl⟩
    · rw [if_neg (by omega)]
      have hidx : (jsLowerL name ++ [' ']).length - 1 = (jsLowerL name).length := by omega
      rw [hidx]
      rw [List.getElem?_append, if_pos (by rw [hA]; omega)]
      rw [List.getElem?_concat_length]
      decide
    · have hget : ((jsLowerL name ++ [' ']) ++ ("ulica".toList ++ (c0 :: jsLowerL rest)))[
          (jsLowerL name ++ [' ']).length + ("ulica".toList : List Char).length]?
          = some c0 := by
        rw [List.getElem?_append_right (by omega)]
        have hidx2 : (jsLowerL name ++ [' ']).length + ("ulica".toList : List Char).length
            - (jsLowerL name ++ [' ']).length = ("ulica".toList : List Char).length := by
          omega
        rw [hidx2]
        rw [List.getElem?_append_right (by decide)]
        simp
      rw [hget]
      have hwc : isWordCharJS c0 = false := wordChar_of_ws hc0
      simp [boundaryOkJS, wordOpt, hwc]
      decide

theorem appendUlicaL_fire_result_eq {a g1 g2 g3 : List Char}
    (hm : matchStreet a = some (g1, g2, g3))
    (hres : appendUlicaL a = trimL g1 ++ " ulica".toList ++ g2 ++ g3) :
    hasStreetTypeWord (jsLowerL (appendUlicaL a)) = true := by
  obtain ⟨_, _, c0, g2t, hg2, hc0⟩ := matchStreet_spec hm
  rw [hres, hg2]
  have hassoc : trimL g1 ++ " ulica".toList ++ (c0 :: g2t) ++ g3
      = trimL g1 ++ " ulica".toList ++ (c0 :: (g2t ++ g3)) := by
    simp
  rw [hassoc]
  exact hasStreetTypeWord_insert (trimL g1) (g2t ++ g3) c0 hc0

theorem appendUlicaL_of_hasStreetTypeWord {b : List Char}
    (h : hasStreetTypeWord (jsLowerL b) = true) : appendUlicaL b = b := by
  unfold appendUlicaL
  simp [h]

theorem appendUlicaL_idem (a : List Char) :
    appendUlicaL (appendUlicaL a) = appendUlicaL a := by
  rcases appendUlicaL_cases a with h | ⟨g1, g2, g3, hm, _, _, _, hres⟩
  · rw [h, h]
  · exact appendUlicaL_of_hasStreetTypeWord (appendUlicaL_fire_result_eq hm hres)

/-- C10: the colloquial street-name rewrite is idempotent — once `ulica`
has been inserted, the address carries a street-type word, so a second
application leaves it unchanged. -/
theorem claim_C10_rewrite_idempotent (a : String) :
    appendUlicaIfNeeded (appendUlicaIfNeeded a) = appendUlicaIfNeeded a := by
  unfold appendUlicaIfNeeded
  have h := appendUlicaL_idem a.data
  exact congrArg String.mk h

theorem appendUlicaIfNeeded_ne_iff (a : String) :
    appendUlicaIfNeeded a ≠ a ↔ appendUlicaL a.data ≠ a.data := by
  constructor
  · intro h heq
    apply h
    show String.mk (appendUlicaL a.data) = a
    rw [heq]
  · intro h heq
    exact h (congrArg String.data heq)

theorem appendUlicaL_fire_eq {a g1 g2 g3 : List Char}
    (hm : matchStreet a = some (g1, g2, g3))
    (hst : hasStreetTypeWord (jsLowerL a) = false)
    (h1 : (splitWsJS (trimL g1)).length = 1)
    (h2 : looksLikeCroatianGenitiveAdjective (trimL g1) = true) :
    appendUlicaL a = trimL g1 ++ " ulica".toList ++ g2 ++ g3 := by
  unfold appendUlicaL
  simp [hst, hm, h1, h2]

theorem appendUlicaL_fire_ne {a g1 g2 g3 : List Char}
    (hm : matchStreet a = some (g1, g2, g3))
    (hst : hasStreetTypeWord (jsLowerL a) = false) :
    trimL g1 ++ " ulica".toList ++ g2 ++ g3 ≠ a := by
  intro heq
  obtain ⟨hdec, -, c0, g2t, hg2, hc0⟩ := matchStreet_spec hm
  rw [hdec] at heq
  have h3 : trimL g1 ++ " ulica".toList = g1 :=
    List.append_cancel_right (List.append_cancel_right heq)
  have hA : a = trimL g1 ++ " ulica".toList ++ (c0 :: (g2t ++ g3)) := by
    conv_lhs => rw [hdec, ← h3, hg2]
    simp
  have htrue : hasStreetTypeWord (jsLowerL a) = true := by
    rw [hA]
    exact hasStreetTypeWord_insert (trimL g1) (g2t ++ g3) c0 hc0
  rw [hst] at htrue
  exact Bool.false_ne_true htrue

/-- C9: the colloquial street-name rewrite changes the address exactly when
the address lacks every street-type word, the street/house-number regex
matches, and the trimmed street-name group is a single word that looks like
a Croatian genitive/possessive adjective; when it changes the address it
inserts the word `ulica` between the trimmed street name and the
house-number group; and the adjectival test rejects every word ending in
the noun-forming suffix `-ica`, so the rewrite never fires on such names. -/
theorem claim_C9_rewrite_characterization (a : String) :
    (appendUlicaIfNeeded a ≠ a ↔
      (hasStreetTypeWord (jsLowerL a.data) = false ∧
       ∃ g1 g2 g3, matchStreet a.data = some (g1, g2, g3) ∧
         (splitWsJS (trimL g1)).length = 1 ∧
         looksLikeCroatianGenitiveAdjective (trimL g1) = true))
    ∧ (∀ g1 g2 g3, matchStreet a.data = some (g1, g2, g3) →
        appendUlicaIfNeeded a ≠ a →
        (appendUlicaIfNeeded a).data = trimL g1 ++ " ulica".toList ++ g2 ++ g3)
    ∧ (∀ w : List Char, endsWithL "ica".toList (jsLowerL w) = true →
        looksLikeCroatianGenitiveAdjective w = false) := by
  refine ⟨⟨?_, ?_⟩, ?_, ?_⟩
  · intro hne
    rcases appendUlicaL_cases a.data with h | ⟨g1, g2, g3, hm, hst, h1, h2, hres⟩
    · exact absurd h ((appendUlicaIfNeeded_ne_iff a).mp hne)
    · exact ⟨hst, g1, g2, g3, hm, h1, h2⟩
  · rintro ⟨hst, g1, g2, g3, hm, h1, h2⟩
    apply (appendUlicaIfNeeded_ne_iff a).mpr
    rw [appendUlicaL_fire_eq hm hst h1 h2]
    exact appendUlicaL_fire_ne hm hst
  · intro g1 g2 g3 hm hne
    rcases appendUlicaL_cases a.data with h | ⟨g1', g2', g3', hm', hst', h1', h2', hres⟩
    · exact absurd h ((appendUlicaIfNeeded_ne_iff a).mp hne)
    · rw [hm] at hm'
      simp only [Option.some.injEq, Prod.mk.injEq] at hm'
      obtain ⟨e1, e2, e3⟩ := hm'
      subst e1
      subst e2
      subst e3
      simpa [appendUlicaIfNeeded] using hres
  · intro w hica
    have hica2 : endsWithL ['i', 'c', 'a'] (jsLowerL w) = true := hica
    simp [looksLikeCroatianGenitiveAdjective, hica2]

theorem isWsJS_jsCharToLower (c : Char) : isWsJS (jsCharToLower c) = isWsJS c := by
  by_cases hw : isWsJS c = true
  · rw [jsCharToLower_ws hw]
  · rw [Bool.not_eq_true] at hw
    rw [hw]
    unfold jsCharToLower
    split_ifs with h1 h2 h3 h4 h5 h6
    · have hlo : 65 ≤ c.toNat := h1.1
      have hhi : c.toNat ≤ 90 := h1.2
      have hv : (c.toNat + 32).isValidChar := Or.inl (by omega)
      have htn : (Char.ofNat (c.toNat + 32)).toNat = c.toNat + 32 := by
        rw [Char.ofNat, dif_pos hv]
        simp [Char.ofNatAux, Char.toNat, UInt32.toNat]
      have e1 : (' ' : Char).toNat = 32 := rfl
      have e2 : ('\t' : Char).toNat = 9 := rfl
      have e3 : ('\n' : Char).toNat = 10 := rfl
      have e4 : ('\r' : Char).toNat = 13 := rfl
      have e5 : ('\x0b' : Char).toNat = 11 := rfl
      have e6 : ('\x0c' : Char).toNat = 12 := rfl
      have e7 : (' ' : Char).toNat = 160 := rfl
      simp only [isWsJS, Bool.or_eq_false_iff, decide_eq_false_iff_not]
      refine ⟨⟨⟨⟨⟨⟨?_, ?_⟩, ?_⟩, ?_⟩, ?_⟩, ?_⟩, ?_⟩ <;>
        (intro h; have h2 := congrArg Char.toNat h; rw [htn] at h2;
         simp only [e1, e2, e3, e4, e5, e6, e7] at h2; omega)
    · subst h2; decide
    · subst h3; decide
    · subst h4; decide
    · subst h5; decide
    · subst h6; decide
    · exact hw

theorem trimL_jsLowerL (l : List Char) : trimL (jsLowerL l) = jsLowerL (trimL l) := by
  have hp : isWsJS ∘ jsCharToLower = isWsJS := funext fun c => isWsJS_jsCharToLower c
  unfold trimL jsLowerL
  rw [List.dropWhile_map, hp, ← List.map_reverse, List.dropWhile_map, hp, ← List.map_reverse]

theorem containsSeq_append_right {pat l2 : List Char} (l1 : List Char)
    (h : containsSeq pat l2 = true) : containsSeq pat (l1 ++ l2) = true := by
  rw [containsSeq_iff] at h ⊢
  obtain ⟨s, t, h⟩ := h
  exact ⟨l1 ++ s, t, by rw [h]; simp⟩

theorem containsSeq_append_left {pat l1 : List Char} (l2 : List Char)
    (h : containsSeq pat l1 = true) : containsSeq pat (l1 ++ l2) = true := by
  rw [containsSeq_iff] at h ⊢
  obtain ⟨s, t, h⟩ := h
  exact ⟨s, t ++ l2, by rw [h]; simp⟩

theorem containsSeq_singleton {c : Char} {l : List Char} :
    containsSeq [c] l = true ↔ c ∈ l := by
  rw [containsSeq_iff]
  constructor
  · rintro ⟨s, t, h⟩
    subst h
    simp
  · intro h
    obtain ⟨s, t, h⟩ := List.append_of_mem h
    exact ⟨s, t, by rw [h]; simp⟩

theorem dropWhile_ws_append {pat : List Char} (s t : List Char) (hne : pat ≠ [])
    (hws : ∀ c ∈ pat, isWsJS c = false) :
    List.dropWhile isWsJS (s ++ (pat ++ t)) = List.dropWhile isWsJS s ++ (pat ++ t) := by
  rw [List.dropWhile_append]
  split_ifs with h
  · rw [List.isEmpty_iff] at h
    rw [h, List.nil_append]
    cases pat with
    | nil => exact absurd rfl hne
    | cons c cs =>
      rw [List.cons_append, List.dropWhile_cons_of_neg]
      simp [hws c (List.mem_cons_self c cs)]
  · rfl

theorem trimL_containsSeq {pat l : List Char} (hne : pat ≠ [])
    (hws : ∀ c ∈ pat, isWsJS c = false)
    (h : containsSeq pat l = true) : containsSeq pat (trimL l) = true := by
  obtain ⟨s, t, hl⟩ := containsSeq_iff.mp h
  rw [List.append_assoc] at hl
  subst hl
  unfold trimL
  rw [dropWhile_ws_append s t hne hws]
  have hrev : (List.dropWhile isWsJS s ++ (pat ++ t)).reverse
      = t.reverse ++ (pat.reverse ++ (List.dropWhile isWsJS s).reverse) := by
    simp
  rw [hrev, dropWhile_ws_append t.reverse ((List.dropWhile isWsJS s).reverse)
    (by simpa using hne) (by intro c hc; exact hws c (List.mem_reverse.mp hc))]
  rw [containsSeq_iff]
  refine ⟨List.dropWhile isWsJS s, (List.dropWhile isWsJS t.reverse).reverse, ?_⟩
  simp

theorem containsSeq_append_ws_split {pat A B : List Char} {c0 : Char}
    (hws : ∀ c ∈ pat, isWsJS c = false) (hc0 : isWsJS c0 = true)
    (h : containsSeq pat (A ++ (c0 :: B)) = true) :
    containsSeq pat A = true ∨ containsSeq pat (c0 :: B) = true := by
  obtain ⟨pre, suf, hl⟩ := containsSeq_iff.mp h
  by_cases hcase1 : pre.length + pat.length ≤ A.length
  · left
    rw [containsSeq_iff]
    have h1 : ((pre ++ pat) ++ suf).take A.length = A := by
      rw [← hl]
      exact List.take_left A (c0 :: B)
    have h2 : (pre ++ pat).take A.length = pre ++ pat :=
      List.take_of_length_le (by rw [List.length_append]; omega)
    have hA : A = (pre ++ pat) ++ suf.take (A.length - (pre ++ pat).length) := by
      conv_lhs => rw [← h1]
      rw [List.take_append_eq_append_take, h2]
    exact ⟨pre, suf.take (A.length - (pre ++ pat).length), hA⟩
  · by_cases hcase2 : A.length < pre.length
    · right
      rw [containsSeq_iff]
      have h1 : ((pre ++ pat) ++ suf).drop A.length = c0 :: B := by
        rw [← hl]
        exact List.drop_left A (c0 :: B)
      have hB : c0 :: B = pre.drop A.length ++ pat ++ suf := by
        rw [← h1, List.append_assoc, List.drop_append_eq_append_drop,
          Nat.sub_eq_zero_of_le (by omega), List.drop_zero, List.append_assoc]
      exact ⟨pre.drop A.length, suf, hB⟩
    · exfalso
      have hge : pre.length ≤ A.length := by omega
      have hL : (A ++ (c0 :: B))[A.length]? = some c0 := by
        rw [List.getElem?_append_right (le_refl A.length)]
        simp
      have hR : ((pre ++ pat) ++ suf)[A.length]? = pat[A.length - pre.length]? := by
        rw [List.getElem?_append, if_pos (by rw [List.length_append]; omega)]
        rw [List.getElem?_append_right hge]
      rw [hl, hR] at hL
      have hmem : c0 ∈ pat := List.getElem?_mem hL
      rw [hws c0 hmem] at hc0
      exact Bool.false_ne_true hc0

theorem mem_of_mem_trimL {c : Char} {l : List Char} (h : c ∈ trimL l) : c ∈ l := by
  unfold trimL at h
  rw [List.mem_reverse] at h
  have h2 : c ∈ (l.dropWhile isWsJS).reverse := (List.dropWhile_sublist _).subset h
  rw [List.mem_reverse] at h2
  exact (List.dropWhile_sublist _).subset h2

theorem appendUlicaL_mem {c : Char} {q : List Char} (h : c ∈ appendUlicaL q) :
    c ∈ q ∨ c ∈ " ulica".toList := by
  rcases appendUlicaL_cases q with hcase | ⟨g1, g2, g3, hm, _, _, _, hres⟩
  · rw [hcase] at h
    exact Or.inl h
  · rw [hres] at h
    obtain ⟨hdec, -, -⟩ := matchStreet_spec hm
    simp only [List.append_assoc, List.mem_append] at h
    rcases h with h | h | h | h
    · refine Or.inl ?_
      rw [hdec]
      simp only [List.append_assoc, List.mem_append]
      exact Or.inl (mem_of_mem_trimL h)
    · exact Or.inr h
    · refine Or.inl ?_
      rw [hdec]
      simp only [List.append_assoc, List.mem_append]
      exact Or.inr (Or.inl h)
    · refine Or.inl ?_
      rw [hdec]
      simp only [List.append_assoc, List.mem_append]
      exact Or.inr (Or.inr h)

theorem appendUlicaL_ne_nil {q : List Char} (h : q ≠ []) : appendUlicaL q ≠ [] := by
  rcases appendUlicaL_cases q with hcase | ⟨g1, g2, g3, hm, _, _, _, hres⟩
  · rw [hcase]
    exact h
  · rw [hres]
    simp

theorem appendUlicaL_preserves_wsfree_pat {pat q : List Char} (hne : pat ≠ [])
    (hws : ∀ c ∈ pat, isWsJS c = false)
    (h : containsSeq pat (jsLowerL q) = true) :
    containsSeq pat (jsLowerL (appendUlicaL q)) = true := by
  rcases appendUlicaL_cases q with hcase | ⟨g1, g2, g3, hm, _, _, _, hres⟩
  · rw [hcase]
    exact h
  · rw [hres]
    obtain ⟨hdec, -, c0, g2t, hg2, hc0⟩ := matchStreet_spec hm
    subst hg2
    rw [hdec] at h
    have hc0l : jsCharToLower c0 = c0 := jsCharToLower_ws hc0
    have hsplitq : jsLowerL (g1 ++ (c0 :: g2t) ++ g3)
        = jsLowerL g1 ++ (c0 :: (jsLowerL g2t ++ jsLowerL g3)) := by
      unfold jsLowerL
      simp [hc0l]
    rw [hsplitq] at h
    rcases containsSeq_append_ws_split hws hc0 h with hA | hB
    · have h1 : containsSeq pat (trimL (jsLowerL g1)) = true :=
        trimL_containsSeq hne hws hA
      rw [trimL_jsLowerL] at h1
      have hgoal : jsLowerL (trimL g1 ++ " ulica".toList ++ (c0 :: g2t) ++ g3)
          = jsLowerL (trimL g1) ++ jsLowerL (" ulica".toList ++ (c0 :: g2t) ++ g3) := by
        unfold jsLowerL
        simp
      rw [hgoal]
      exact containsSeq_append_left _ h1
    · have hgoal : jsLowerL (trimL g1 ++ " ulica".toList ++ (c0 :: g2t) ++ g3)
          = (jsLowerL (trimL g1) ++ jsLowerL " ulica".toList)
            ++ (c0 :: (jsLowerL g2t ++ jsLowerL g3)) := by
        unfold jsLowerL
        simp [hc0l]
      rw [hgoal]
      exact containsSeq_append_right _ hB

theorem uniqueCIGo_key_nodup (vs : List String) : ∀ seen : List (List Char),
    ((uniqueCIGo seen vs).map fun q => jsLowerL q.data).Nodup
    ∧ ∀ k ∈ seen, k ∉ (uniqueCIGo seen vs).map fun q => jsLowerL q.data := by
  induction vs with
  | nil =>
    intro seen
    simp [uniqueCIGo]
  | cons v rest ih =>
    intro seen
    unfold uniqueCIGo
    by_cases hk : (jsLowerL (trimL v.data)).isEmpty = true
    · simp only [hk, if_true]
      exact ih seen
    · rw [if_neg hk]
      by_cases hs : seen.contains (jsLowerL (trimL v.data)) = true
      · rw [if_pos hs]
        exact ih seen
      · rw [if_neg hs]
        simp only [List.map_cons, List.nodup_cons]
        have hhead : jsLowerL (String.mk (trimL v.data)).data = jsLowerL (trimL v.data) := rfl
        refine ⟨⟨?_, (ih _).1⟩, ?_⟩
        · have hnot := (ih (jsLowerL (trimL v.data) :: seen)).2
            (jsLowerL (trimL v.data)) (List.mem_cons_self _ _)
          simpa [hhead] using hnot
        · intro k hkseen
          simp only [List.mem_cons, hhead]
          rintro (heq | htail)
          · subst heq
            exact hs (List.elem_iff.mpr hkseen)
          · exact (ih _).2 k (List.mem_cons_of_mem _ hkseen) htail

/-- C8: the address-query generator emits the image, under the colloquial
street-name rewrite, of a case-insensitively deduplicated candidate list
(first-seen order, trimmed), and every emitted query is non-empty, free of
the multi-segment separator `/`, and contains `zagreb` or `croatia`
case-insensitively; the deduplication happens before the rewrite, so the
emitted list itself is not guaranteed duplicate-free. -/
theorem claim_C8_query_list_properties (r : CanonicalRow) :
    ∃ base : List String,
      addressQueriesForRow r = base.map appendUlicaIfNeeded
      ∧ (base.map fun q => jsLowerL q.data).Nodup
      ∧ ∀ q ∈ addressQueriesForRow r,
          q ≠ "" ∧ containsSeq ['/'] q.data = false
          ∧ (containsSeq "zagreb".toList (jsLowerL q.data) = true
             ∨ containsSeq "croatia".toList (jsLowerL q.data) = true) := by
  refine ⟨_, rfl, ?_, ?_⟩
  · exact List.Nodup.sublist (List.Sublist.map _ (List.filter_sublist _))
      ((uniqueCIGo_key_nodup _ []).1)
  · intro q hq
    simp only [addressQueriesForRow, List.mem_map] at hq
    obtain ⟨q0, hq0mem, rfl⟩ := hq
    rw [List.mem_filter] at hq0mem
    obtain ⟨-, hpred⟩ := hq0mem
    simp only [Bool.and_eq_true, Bool.not_eq_true', decide_eq_true_eq,
      Bool.or_eq_true] at hpred
    obtain ⟨⟨hne0, hslash0⟩, hctx0⟩ := hpred
    have hdata : (appendUlicaIfNeeded q0).data = appendUlicaL q0.data := rfl
    refine ⟨?_, ?_, ?_⟩
    · intro he
      have hd0 : q0.data ≠ [] := fun hd => hne0 (by
        have : q0 = String.mk [] := congrArg String.mk hd
        exact this)
      have : appendUlicaL q0.data = [] := congrArg String.data he
      exact appendUlicaL_ne_nil hd0 this
    · rw [hdata]
      by_contra hcon
      rw [Bool.not_eq_false] at hcon
      have hmem := containsSeq_singleton.mp hcon
      rcases appendUlicaL_mem hmem with hin | hin
      · rw [containsSeq_singleton.mpr hin] at hslash0
        exact absurd hslash0 (by decide)
      · exact absurd hin (by decide)
    · rw [hdata]
      rcases hctx0 with hz | hc
      · exact Or.inl (appendUlicaL_preserves_wsfree_pat (by decide) (by decide) hz)
      · exact Or.inr (appendUlicaL_preserves_wsfree_pat (by decide) (by decide) hc)

/-- C8 counterexample: on a row whose raw address joins a colloquial street
variant and its `ulica` variant with `/`, the query generator returns the
same query twice — the emitted list is not unique. -/
theorem claim_C8_counterexample :
    addressQueriesForRow rowDup
      = ["Teslina ulica 14, Zagreb", "Teslina ulica 14, Zagreb"]
    ∧ ¬ (addressQueriesForRow rowDup).Nodup := by
  constructor
  · decide
  · decide
